import Mathlib

/-!
Verification development for the sticker conversion pipeline, the
identity-deduplication layer and the conversation-keyed JSON output
multiplexer of the `imessage-exporter` repository.

The Rust sources embedded here are:
* `src/app/compatibility/converters/sticker.rs` (`sticker_copy_convert`,
  `convert_heic`, `convert_heics`),
* `src/app/runtime.rs` (`State`, `run_diagnostic`),
* `src/exporters/json.rs` (`JSONExporter::new`, `iter_messages`,
  `get_or_create_file`).

Helpers that live in parts of the repository not present under `src/`
(`common.rs`: `run_command`, `ensure_paths`, `copy_raw`; the
`imessage_database` crate: `MediaType`, `Chat::dedupe`; `Config`) are
modelled from the spec and carry a doc comment saying so.

External processes are modelled by an environment (`Env`) that fixes, per
pipeline stage, whether the spawned tool exits successfully; success is
determined solely by exit status, a failed invocation writes nothing, and a
tool whose input file does not exist fails.  The scratch directory
`/tmp/imessage` is modelled structurally: the converter only ever creates
files named `frame_NNNN.png`, `alpha_NNNN.png`, `merged_NNNN.png` and
`palette.png` there, so the directory state is four index sets plus a flag.
-/

set_option autoImplicit false
set_option linter.unusedVariables false

namespace Imx

/-- File paths are a stem plus an extension; `Path::set_extension` swaps
the extension, which is the only path operation the converter performs. -/
structure FPath where
  stem : String
  ext : String
deriving DecidableEq

def FPath.setExtension (p : FPath) (e : String) : FPath :=
  { p with ext := e }

def FPath.render (p : FPath) : String :=
  p.stem ++ "." ++ p.ext

/-- Modelled from the spec: the declared media subtype of an attachment
(`imessage_database::tables::attachment::MediaType`, not under `src/`); the
converter only inspects the `Image` subtype string. -/
inductive MediaType where
  | image (sub : String)
  | video (sub : String)
  | audio (sub : String)
  | application (sub : String)
  | unknown
deriving DecidableEq

/-- Modelled from the spec: the target output formats of the converter
(`models::ImageType`, not under `src/`): the still portable format is png,
the animated portable format is gif. -/
inductive ImageType where
  | png
  | gif
deriving DecidableEq

def ImageType.toStr : ImageType → String
  | .png => "png"
  | .gif => "gif"

/-- Modelled from the spec: the configured still-image tool
(`models::ImageConverter`, not under `src/`).  The two variants build
different argument lists for one invocation; for `magick` the argument
`from[0]` selects the first (highest-resolution) embedded representation. -/
inductive ImageConverter where
  | sips
  | imagemagick
deriving DecidableEq

/-- Modelled from the spec: the configured video/frame tool
(`models::VideoConverter`, not under `src/`); `ffmpeg` is the only variant. -/
inductive VideoConverter where
  | ffmpeg
deriving DecidableEq

/-- Abstract file contents: raw source bytes, the output of the still-image
tool on a source, or the fully assembled animated gif built from a source.
A conversion never truncates a file halfway in this model: a failed tool
invocation writes nothing. -/
inductive Content where
  | raw (tag : Nat)
  | still (fmt : String) (src : Content)
  | animatedGif (src : Content)
deriving DecidableEq

/-- State of the scratch directory `/tmp/imessage`.  The pipeline only ever
writes files named `frame_NNNN.png`, `alpha_NNNN.png`, `merged_NNNN.png` and
`palette.png` inside it, so its contents are the three index sets plus the
palette flag; `read_dir` counts exactly these entries. -/
structure Scratch where
  dirExists : Bool
  frames : Finset Nat
  alphas : Finset Nat
  merged : Finset Nat
  palette : Bool
deriving DecidableEq

def emptyScratch : Scratch :=
  ⟨false, ∅, ∅, ∅, false⟩

def Scratch.fileCount (s : Scratch) : Nat :=
  s.frames.card + s.alphas.card + s.merged.card + (if s.palette then 1 else 0)

/-- The file-system state one conversion call touches: the content of the
source file, the content at the (single) destination path of the call, the
scratch directory, and the diagnostic log (`eprintln` lines). -/
structure FS where
  srcContent : Option Content
  destContent : Option Content
  scratch : Scratch
  log : List String
deriving DecidableEq

/-- Modelled from the spec: deterministic behavior of the external tools and
of the file system, per pipeline stage.  `run_command` (`common.rs`, not
under `src/`) spawns a tool and reports success solely from its exit status;
each stage of the fixed pipeline gets one success flag.  The ffmpeg demux
stages write `frameCount` numbered frames starting at index `demuxStart`
(ffmpeg's image2 muxer documents the default start number as 1).
`reprOk` is path representability (`ensure_paths` in `common.rs`). -/
structure Env where
  reprOk : FPath → Bool
  mkdirOk : Bool
  demuxFramesOk : Bool
  demuxAlphaOk : Bool
  frameCount : Nat
  demuxStart : Nat
  mergeOk : Nat → Bool
  paletteOk : Bool
  assembleOk : Bool
  removeOk : Bool
  stillOk : Bool

/-- Index set of the numbered files one successful demux invocation writes. -/
def demuxSet (env : Env) : Finset Nat :=
  (Finset.range env.frameCount).image (fun k => k + env.demuxStart)

/-- Modelled from the spec: `copy_raw` (`common.rs`, not under `src/`)
copies the original source bytes to the destination path; a copy error is
only logged, so the model copies when the source exists. -/
def copy_raw (fr toP : FPath) (fs : FS) : FS :=
  match fs.srcContent with
  | some c => { fs with destContent := some c }
  | none => fs

/-- The merge loop body of `convert_heics`: Rust
`(0..num_frames).try_for_each` runs one merge invocation per index in
order and aborts at the first failure, keeping the files already written.
A merge of index `i` reads `frame_i` and `alpha_i` (it fails when either is
absent or the tool fails) and writes `merged_i`. -/
def mergeSeq (env : Env) : List Nat → Scratch → Bool × Scratch
  | [], s => (true, s)
  | i :: rest, s =>
    if i ∈ s.frames ∧ i ∈ s.alphas ∧ env.mergeOk i = true then
      mergeSeq env rest { s with merged := insert i s.merged }
    else
      (false, s)

/-- The ffmpeg pipeline of `convert_heics` after path validation and after
the scratch directory is ensured: demux the video stream, demux the alpha
stream, count the files in the scratch directory, merge indices
`0..count/2`, build the palette from `merged_0001`, assemble the gif at the
destination, then remove the scratch directory. -/
def convertHeicsPipeline (env : Env) (fr toP : FPath) (vconv : VideoConverter)
    (fs : FS) : Option Unit × FS :=
  match vconv with
  | VideoConverter.ffmpeg =>
    match fs.srcContent with
    | none => (none, fs)
    | some c =>
      if env.demuxFramesOk then
        let fs1 : FS :=
          { fs with scratch := { fs.scratch with frames := fs.scratch.frames ∪ demuxSet env } }
        if env.demuxAlphaOk then
          let fs2 : FS :=
            { fs1 with scratch := { fs1.scratch with alphas := fs1.scratch.alphas ∪ demuxSet env } }
          let numFrames := fs2.scratch.fileCount / 2
          let ms := mergeSeq env (List.range numFrames) fs2.scratch
          let fs3 : FS := { fs2 with scratch := ms.2 }
          if ms.1 then
            if 1 ∈ fs3.scratch.merged ∧ env.paletteOk = true then
              let fs4 : FS := { fs3 with scratch := { fs3.scratch with palette := true } }
              if env.assembleOk then
                let fs5 : FS := { fs4 with destContent := some (Content.animatedGif c) }
                if env.removeOk then
                  (some (), { fs5 with scratch := emptyScratch })
                else (none, fs5)
              else (none, fs4)
            else (none, fs3)
          else (none, fs3)
        else (none, fs1)
      else (none, fs)

/-- Embedding of `convert_heics` (sticker.rs lines 105-211): validate the
paths, ensure `/tmp/imessage` exists (logging and aborting when creation
fails), then run the ffmpeg pipeline. -/
def convert_heics (env : Env) (fr toP : FPath) (vconv : VideoConverter)
    (fs : FS) : Option Unit × FS :=
  if env.reprOk fr && env.reprOk toP then
    if fs.scratch.dirExists then
      convertHeicsPipeline env fr toP vconv fs
    else if env.mkdirOk then
      convertHeicsPipeline env fr toP vconv
        { fs with scratch := { fs.scratch with dirExists := true } }
    else
      (none, { fs with log := fs.log ++ ["Unable to create /tmp/imessage"] })
  else (none, fs)

/-- Embedding of `convert_heic` (sticker.rs lines 78-103): validate the
paths, then run the still-image tool once; on success the destination holds
the still conversion of the source (the highest-resolution representation). -/
def convert_heic (env : Env) (fr toP : FPath) (conv : ImageConverter)
    (ot : ImageType) (fs : FS) : Option Unit × FS :=
  if env.reprOk fr && env.reprOk toP then
    match fs.srcContent with
    | some c =>
      if env.stillOk then
        (some (), { fs with destContent := some (Content.still ot.toStr c) })
      else (none, fs)
    | none => (none, fs)
  else (none, fs)

/-- The subtype decision table of `sticker_copy_convert` (sticker.rs lines
30-37): heic/HEIC map to png, heics/HEICS/heic-sequence map to gif,
everything else maps to no conversion. -/
def stickerOutputType (mime : MediaType) : Option ImageType :=
  match mime with
  | MediaType.image s =>
    if s = "heic" ∨ s = "HEIC" then some ImageType.png
    else if s = "heics" ∨ s = "HEICS" ∨ s = "heic-sequence" then some ImageType.gif
    else none
  | _ => none

/-- Embedding of `sticker_copy_convert` (sticker.rs lines 22-61).  Returns
the conversion outcome (`Some` converted media type, or `None` for a
passthrough copy), the final destination path (the Rust function mutates
`to` in place), and the resulting file-system state. -/
def sticker_copy_convert (env : Env) (fr : FPath) (stub : FPath)
    (ic : ImageConverter) (vc : Option VideoConverter) (mime : MediaType)
    (fs : FS) : Option MediaType × FPath × FS :=
  match stickerOutputType mime with
  | some ot =>
    let toP := stub.setExtension ot.toStr
    let anim : Option Unit × FS :=
      match ot, vc with
      | ImageType.gif, some v => convert_heics env fr toP v fs
      | _, _ => (none, fs)
    match anim with
    | (some _, fs1) => (some (MediaType.image ot.toStr), toP, fs1)
    | (none, fs1) =>
      match convert_heic env fr toP ic ot fs1 with
      | (some _, fs2) => (some (MediaType.image ot.toStr), toP, fs2)
      | (none, fs2) =>
        let fs3 : FS := { fs2 with log := fs2.log ++ ["Unable to convert " ++ fr.render] }
        (none, toP, copy_raw fr toP fs3)
  | none => (none, stub, copy_raw fr stub fs)

/-- The TryStandard → Fallback tail of the spec state machine, written from
the spec words: invoke the still tool once; on failure warn and copy the
source bytes raw.  Used to state that a failed animated attempt falls
through to exactly this cascade. -/
def tryStandardThenFallback (env : Env) (fr toP : FPath) (ic : ImageConverter)
    (ot : ImageType) (fs : FS) : Option MediaType × FPath × FS :=
  match convert_heic env fr toP ic ot fs with
  | (some _, fs2) => (some (MediaType.image ot.toStr), toP, fs2)
  | (none, fs2) =>
    let fs3 : FS := { fs2 with log := fs2.log ++ ["Unable to convert " ++ fr.render] }
    (none, toP, copy_raw fr toP fs3)

/-! Basic lemmas about the merge loop. -/

theorem mergeSeq_frames (env : Env) (l : List Nat) (s : Scratch) :
    (mergeSeq env l s).2.frames = s.frames := by
  induction l generalizing s with
  | nil => rfl
  | cons i rest ih =>
    simp only [mergeSeq]
    split
    · exact ih _
    · rfl

theorem mergeSeq_alphas (env : Env) (l : List Nat) (s : Scratch) :
    (mergeSeq env l s).2.alphas = s.alphas := by
  induction l generalizing s with
  | nil => rfl
  | cons i rest ih =>
    simp only [mergeSeq]
    split
    · exact ih _
    · rfl

theorem mergeSeq_dirExists (env : Env) (l : List Nat) (s : Scratch) :
    (mergeSeq env l s).2.dirExists = s.dirExists := by
  induction l generalizing s with
  | nil => rfl
  | cons i rest ih =>
    simp only [mergeSeq]
    split
    · exact ih _
    · rfl

theorem mergeSeq_palette (env : Env) (l : List Nat) (s : Scratch) :
    (mergeSeq env l s).2.palette = s.palette := by
  induction l generalizing s with
  | nil => rfl
  | cons i rest ih =>
    simp only [mergeSeq]
    split
    · exact ih _
    · rfl

theorem mergeSeq_fst_iff (env : Env) (l : List Nat) (s : Scratch) :
    (mergeSeq env l s).1 = true ↔
      ∀ i ∈ l, i ∈ s.frames ∧ i ∈ s.alphas ∧ env.mergeOk i = true := by
  induction l generalizing s with
  | nil => simp [mergeSeq]
  | cons i rest ih =>
    simp only [mergeSeq]
    split
    · next h =>
      rw [ih]
      constructor
      · intro hall j hj
        rcases List.mem_cons.mp hj with rfl | hj
        · exact h
        · exact hall j hj
      · intro hall j hj
        exact hall j (List.mem_cons_of_mem _ hj)
    · next h =>
      simp only [Bool.false_eq_true, false_iff]
      intro hall
      exact h (hall i (List.mem_cons_self i rest))

theorem mergeSeq_merged_of_all (env : Env) (l : List Nat) (s : Scratch)
    (h : ∀ i ∈ l, i ∈ s.frames ∧ i ∈ s.alphas ∧ env.mergeOk i = true) :
    (mergeSeq env l s).2.merged = s.merged ∪ l.toFinset := by
  induction l generalizing s with
  | nil => simp [mergeSeq]
  | cons i rest ih =>
    have hi := h i (List.mem_cons_self i rest)
    simp only [mergeSeq, if_pos hi]
    rw [ih]
    · simp only [List.toFinset_cons]
      ext j
      simp only [Finset.mem_union, Finset.mem_insert, List.mem_toFinset]
      tauto
    · intro j hj
      exact h j (List.mem_cons_of_mem _ hj)

theorem mergeSeq_merged_sub (env : Env) (l : List Nat) (s : Scratch) :
    (mergeSeq env l s).2.merged ⊆ s.merged ∪ l.toFinset := by
  induction l generalizing s with
  | nil => simp [mergeSeq]
  | cons i rest ih =>
    simp only [mergeSeq]
    split
    · refine (ih _).trans ?_
      intro j hj
      simp only [Finset.mem_union, Finset.mem_insert, List.toFinset_cons,
        List.mem_toFinset] at hj ⊢
      tauto
    · intro j hj
      simp only [Finset.mem_union]
      exact Or.inl hj

/-! Characterization of the animated pipeline. -/

/-- Value of `num_frames` computed by `convert_heics` after the two demux
stages, when the pre-existing frame and alpha files are a subset of the
demuxed ones. -/
def numF (env : Env) (M : Finset Nat) (pb : Bool) : Nat :=
  (env.frameCount + env.frameCount + M.card + (if pb then 1 else 0)) / 2

/-- All conditions for the animated attempt to succeed, as a function of the
environment and the scratch state the attempt starts from. -/
def heicsOk (env : Env) (fr toP : FPath) (M : Finset Nat) (pb : Bool) : Prop :=
  env.reprOk fr = true ∧ env.reprOk toP = true ∧
  env.demuxFramesOk = true ∧ env.demuxAlphaOk = true ∧
  (∀ i < numF env M pb, i ∈ demuxSet env ∧ env.mergeOk i = true) ∧
  1 ∈ M ∪ Finset.range (numF env M pb) ∧
  env.paletteOk = true ∧ env.assembleOk = true ∧ env.removeOk = true

theorem toFinset_listRange (n : Nat) : (List.range n).toFinset = Finset.range n := by
  ext i
  simp

theorem card_demuxSet (env : Env) : (demuxSet env).card = env.frameCount := by
  unfold demuxSet
  rw [Finset.card_image_of_injective _ (add_left_injective env.demuxStart)]
  exact Finset.card_range _

theorem pipeline_some_iff (env : Env) (fr toP : FPath) (v : VideoConverter)
    (fs : FS) (c : Content) (hsrc : fs.srcContent = some c)
    (hsubf : fs.scratch.frames ⊆ demuxSet env)
    (hsuba : fs.scratch.alphas ⊆ demuxSet env) :
    (convertHeicsPipeline env fr toP v fs).1 = some () ↔
      (env.demuxFramesOk = true ∧ env.demuxAlphaOk = true ∧
       (∀ i < numF env fs.scratch.merged fs.scratch.palette, i ∈ demuxSet env ∧ env.mergeOk i = true) ∧
       1 ∈ fs.scratch.merged ∪ Finset.range (numF env fs.scratch.merged fs.scratch.palette) ∧
       env.paletteOk = true ∧ env.assembleOk = true ∧ env.removeOk = true) := by
  cases v
  simp only [convertHeicsPipeline, hsrc]
  have hF : fs.scratch.frames ∪ demuxSet env = demuxSet env :=
    Finset.union_eq_right.mpr hsubf
  have hA : fs.scratch.alphas ∪ demuxSet env = demuxSet env :=
    Finset.union_eq_right.mpr hsuba
  by_cases hdf : env.demuxFramesOk = true
  case neg =>
    rw [if_neg hdf]
    refine iff_of_false (by simp) ?_
    rintro ⟨h, -⟩
    exact hdf h
  case pos =>
  rw [if_pos hdf]
  by_cases hda : env.demuxAlphaOk = true
  case neg =>
    rw [if_neg hda]
    refine iff_of_false (by simp) ?_
    rintro ⟨-, h, -⟩
    exact hda h
  case pos =>
  rw [if_pos hda]
  rw [hF, hA]
  simp only [Scratch.fileCount, card_demuxSet]
  have hnumF : numF env fs.scratch.merged fs.scratch.palette =
      (env.frameCount + env.frameCount + fs.scratch.merged.card +
        (if fs.scratch.palette then 1 else 0)) / 2 := rfl
  by_cases hms : (mergeSeq env
      (List.range ((env.frameCount + env.frameCount + fs.scratch.merged.card +
        (if fs.scratch.palette then 1 else 0)) / 2))
      ⟨fs.scratch.dirExists, demuxSet env, demuxSet env, fs.scratch.merged,
        fs.scratch.palette⟩).1 = true
  case neg =>
    rw [if_neg (by simpa using hms)]
    refine iff_of_false (by simp) ?_
    rintro ⟨-, -, hall, -⟩
    apply hms
    rw [mergeSeq_fst_iff]
    intro i hi
    have hi2 := List.mem_range.mp hi
    rw [← hnumF] at hi2
    rcases hall i hi2 with ⟨hmem, hok⟩
    exact ⟨hmem, hmem, hok⟩
  case pos =>
  rw [if_pos (by simpa using hms)]
  have hall : ∀ i ∈ List.range ((env.frameCount + env.frameCount +
      fs.scratch.merged.card + (if fs.scratch.palette then 1 else 0)) / 2),
      i ∈ (demuxSet env) ∧ i ∈ (demuxSet env) ∧ env.mergeOk i = true := by
    have h2 := (mergeSeq_fst_iff env _ _).mp hms
    simpa using h2
  have hmerged : (mergeSeq env
      (List.range ((env.frameCount + env.frameCount + fs.scratch.merged.card +
        (if fs.scratch.palette then 1 else 0)) / 2))
      ⟨fs.scratch.dirExists, demuxSet env, demuxSet env, fs.scratch.merged,
        fs.scratch.palette⟩).2.merged =
      fs.scratch.merged ∪ Finset.range (numF env fs.scratch.merged fs.scratch.palette) := by
    rw [mergeSeq_merged_of_all env _ _ (by simpa using hall), toFinset_listRange,
      hnumF]
  rw [hmerged]
  by_cases hmem : 1 ∈ fs.scratch.merged ∪ Finset.range (numF env fs.scratch.merged fs.scratch.palette) ∧
      env.paletteOk = true
  case neg =>
    rw [if_neg hmem]
    refine iff_of_false (by simp) ?_
    rintro ⟨-, -, -, hmem2, hpal, -⟩
    exact hmem ⟨hmem2, hpal⟩
  case pos =>
  rw [if_pos hmem]
  by_cases hasm : env.assembleOk = true
  case neg =>
    rw [if_neg hasm]
    refine iff_of_false (by simp) ?_
    rintro ⟨-, -, -, -, -, h, -⟩
    exact hasm h
  case pos =>
  rw [if_pos hasm]
  by_cases hrem : env.removeOk = true
  case neg =>
    rw [if_neg hrem]
    refine iff_of_false (by simp) ?_
    rintro ⟨-, -, -, -, -, -, h⟩
    exact hrem h
  case pos =>
  rw [if_pos hrem]
  refine iff_of_true rfl ⟨hdf, hda, ?_, hmem.1, hmem.2, hasm, hrem⟩
  intro i hi
  rw [hnumF] at hi
  rcases hall i (List.mem_range.mpr hi) with ⟨hmemf, -, hok⟩
  exact ⟨hmemf, hok⟩

theorem pipeline_src (env : Env) (fr toP : FPath) (v : VideoConverter) (fs : FS) :
    (convertHeicsPipeline env fr toP v fs).2.srcContent = fs.srcContent := by
  cases v
  cases h : fs.srcContent
  · simp only [convertHeicsPipeline, h]
  · simp only [convertHeicsPipeline, h]
    split_ifs <;> simp_all

theorem pipeline_none_dirExists (env : Env) (fr toP : FPath) (v : VideoConverter)
    (fs : FS) (h : (convertHeicsPipeline env fr toP v fs).1 = none) :
    (convertHeicsPipeline env fr toP v fs).2.scratch.dirExists = fs.scratch.dirExists := by
  cases v
  cases hs : fs.srcContent
  · simp only [convertHeicsPipeline, hs]
  · simp only [convertHeicsPipeline, hs] at h ⊢
    split_ifs at h ⊢ <;> simp_all [mergeSeq_dirExists]

theorem pipeline_dest_cases (env : Env) (fr toP : FPath) (v : VideoConverter)
    (fs : FS) (c : Content) (hsrc : fs.srcContent = some c) :
    (convertHeicsPipeline env fr toP v fs).2.destContent = fs.destContent ∨
      (convertHeicsPipeline env fr toP v fs).2.destContent =
        some (Content.animatedGif c) := by
  cases v
  simp only [convertHeicsPipeline, hsrc]
  split_ifs <;> simp

theorem pipeline_some_effect (env : Env) (fr toP : FPath) (v : VideoConverter)
    (fs : FS) (c : Content) (hsrc : fs.srcContent = some c)
    (h : (convertHeicsPipeline env fr toP v fs).1 = some ()) :
    (convertHeicsPipeline env fr toP v fs).2 =
      { fs with destContent := some (Content.animatedGif c),
                scratch := emptyScratch } := by
  cases v
  simp only [convertHeicsPipeline, hsrc] at h ⊢
  split_ifs at h ⊢ <;> simp_all

theorem pipeline_scratch_sub (env : Env) (fr toP : FPath) (v : VideoConverter)
    (fs : FS) (hsubf : fs.scratch.frames ⊆ demuxSet env)
    (hsuba : fs.scratch.alphas ⊆ demuxSet env) :
    (convertHeicsPipeline env fr toP v fs).2.scratch.frames ⊆ demuxSet env ∧
      (convertHeicsPipeline env fr toP v fs).2.scratch.alphas ⊆ demuxSet env := by
  cases v
  cases hs : fs.srcContent
  · simp only [convertHeicsPipeline, hs]
    exact ⟨hsubf, hsuba⟩
  · simp only [convertHeicsPipeline, hs]
    split_ifs <;>
      simp_all [mergeSeq_frames, mergeSeq_alphas, emptyScratch,
        Finset.union_subset_iff, Finset.empty_subset]

theorem convert_heics_src (env : Env) (fr toP : FPath) (v : VideoConverter) (fs : FS) :
    (convert_heics env fr toP v fs).2.srcContent = fs.srcContent := by
  unfold convert_heics
  split_ifs <;>
    first
      | exact pipeline_src env fr toP v _
      | rfl

theorem convert_heics_some_iff (env : Env) (fr toP : FPath) (v : VideoConverter)
    (fs : FS) (c : Content) (hsrc : fs.srcContent = some c)
    (hsubf : fs.scratch.frames ⊆ demuxSet env)
    (hsuba : fs.scratch.alphas ⊆ demuxSet env)
    (hmk : env.mkdirOk = true) :
    (convert_heics env fr toP v fs).1 = some () ↔ heicsOk env fr toP fs.scratch.merged fs.scratch.palette := by
  unfold convert_heics
  by_cases hr : (env.reprOk fr && env.reprOk toP) = true
  case neg =>
    rw [if_neg hr]
    refine iff_of_false (by simp) ?_
    rintro ⟨h1, h2, -⟩
    exact hr (by simp [h1, h2])
  case pos =>
  rw [if_pos hr]
  have hr12 : env.reprOk fr = true ∧ env.reprOk toP = true := by
    simpa [Bool.and_eq_true] using hr
  by_cases hde : fs.scratch.dirExists = true
  case pos =>
    rw [if_pos hde, pipeline_some_iff env fr toP v fs c hsrc hsubf hsuba]
    unfold heicsOk
    constructor
    · intro h
      exact ⟨hr12.1, hr12.2, h⟩
    · rintro ⟨-, -, h⟩
      exact h
  case neg =>
    rw [if_neg hde, if_pos hmk]
    refine (pipeline_some_iff env fr toP v
      { fs with scratch := { fs.scratch with dirExists := true } }
      c hsrc hsubf hsuba).trans ?_
    unfold heicsOk
    constructor
    · intro h
      exact ⟨hr12.1, hr12.2, h⟩
    · rintro ⟨-, -, h⟩
      exact h

theorem convert_heics_some_effect (env : Env) (fr toP : FPath) (v : VideoConverter)
    (fs : FS) (c : Content) (hsrc : fs.srcContent = some c)
    (h : (convert_heics env fr toP v fs).1 = some ()) :
    (convert_heics env fr toP v fs).2 =
      { fs with destContent := some (Content.animatedGif c),
                scratch := emptyScratch } := by
  unfold convert_heics at h ⊢
  split_ifs at h ⊢ <;>
    first
      | exact pipeline_some_effect env fr toP v _ c hsrc h
      | exact (pipeline_some_effect env fr toP v _ c hsrc h).trans rfl
      | exact absurd h (by simp)

theorem convert_heics_none_dir (env : Env) (fr toP : FPath) (v : VideoConverter)
    (fs : FS) (hr : (env.reprOk fr && env.reprOk toP) = true)
    (hmk : env.mkdirOk = true)
    (h : (convert_heics env fr toP v fs).1 = none) :
    (convert_heics env fr toP v fs).2.scratch.dirExists = true := by
  unfold convert_heics at h ⊢
  rw [if_pos hr] at h ⊢
  by_cases hde : fs.scratch.dirExists = true
  · rw [if_pos hde] at h ⊢
    rw [pipeline_none_dirExists env fr toP v fs h]
    exact hde
  · rw [if_neg hde, if_pos hmk] at h ⊢
    rw [pipeline_none_dirExists env fr toP v _ h]

theorem convert_heics_dest_cases (env : Env) (fr toP : FPath) (v : VideoConverter)
    (fs : FS) (c : Content) (hsrc : fs.srcContent = some c) :
    (convert_heics env fr toP v fs).2.destContent = fs.destContent ∨
      (convert_heics env fr toP v fs).2.destContent =
        some (Content.animatedGif c) := by
  unfold convert_heics
  split_ifs
  · exact pipeline_dest_cases env fr toP v fs c hsrc
  · exact pipeline_dest_cases env fr toP v _ c hsrc
  · exact Or.inl rfl
  · exact Or.inl rfl

theorem convert_heics_scratch_sub (env : Env) (fr toP : FPath) (v : VideoConverter)
    (fs : FS) (hsubf : fs.scratch.frames ⊆ demuxSet env)
    (hsuba : fs.scratch.alphas ⊆ demuxSet env) :
    (convert_heics env fr toP v fs).2.scratch.frames ⊆ demuxSet env ∧
      (convert_heics env fr toP v fs).2.scratch.alphas ⊆ demuxSet env := by
  unfold convert_heics
  split_ifs
  · exact pipeline_scratch_sub env fr toP v fs hsubf hsuba
  · exact pipeline_scratch_sub env fr toP v _ hsubf hsuba
  · exact ⟨hsubf, hsuba⟩
  · exact ⟨hsubf, hsuba⟩

theorem pipeline_stall_effect (env : Env) (fr toP : FPath) (v : VideoConverter)
    (fs : FS) (c : Content) (hsrc : fs.srcContent = some c)
    (hsubf : fs.scratch.frames ⊆ demuxSet env)
    (hsuba : fs.scratch.alphas ⊆ demuxSet env)
    (hdf : env.demuxFramesOk = true) (hda : env.demuxAlphaOk = true)
    (hall : ∀ i < numF env fs.scratch.merged fs.scratch.palette, i ∈ demuxSet env ∧ env.mergeOk i = true)
    (hstall : ¬(1 ∈ fs.scratch.merged ∪ Finset.range (numF env fs.scratch.merged fs.scratch.palette) ∧
      env.paletteOk = true)) :
    (convertHeicsPipeline env fr toP v fs).1 = none ∧
      (convertHeicsPipeline env fr toP v fs).2.scratch.frames = demuxSet env ∧
      (convertHeicsPipeline env fr toP v fs).2.scratch.alphas = demuxSet env ∧
      (convertHeicsPipeline env fr toP v fs).2.scratch.merged =
        fs.scratch.merged ∪ Finset.range (numF env fs.scratch.merged fs.scratch.palette) ∧
      (convertHeicsPipeline env fr toP v fs).2.scratch.palette =
        fs.scratch.palette := by
  cases v
  simp only [convertHeicsPipeline, hsrc]
  rw [if_pos hdf, if_pos hda]
  have hF : fs.scratch.frames ∪ demuxSet env = demuxSet env :=
    Finset.union_eq_right.mpr hsubf
  have hA : fs.scratch.alphas ∪ demuxSet env = demuxSet env :=
    Finset.union_eq_right.mpr hsuba
  rw [hF, hA]
  simp only [Scratch.fileCount, card_demuxSet]
  have hnumF : numF env fs.scratch.merged fs.scratch.palette =
      (env.frameCount + env.frameCount + fs.scratch.merged.card +
        (if fs.scratch.palette then 1 else 0)) / 2 := rfl
  have hallL : ∀ i ∈ List.range ((env.frameCount + env.frameCount +
      fs.scratch.merged.card + (if fs.scratch.palette then 1 else 0)) / 2),
      i ∈ (⟨fs.scratch.dirExists, demuxSet env, demuxSet env, fs.scratch.merged,
        fs.scratch.palette⟩ : Scratch).frames ∧
      i ∈ (⟨fs.scratch.dirExists, demuxSet env, demuxSet env, fs.scratch.merged,
        fs.scratch.palette⟩ : Scratch).alphas ∧ env.mergeOk i = true := by
    intro i hi
    have hi2 := List.mem_range.mp hi
    rw [← hnumF] at hi2
    rcases hall i hi2 with ⟨hm, hok⟩
    exact ⟨hm, hm, hok⟩
  have hms : (mergeSeq env (List.range ((env.frameCount + env.frameCount +
      fs.scratch.merged.card + (if fs.scratch.palette then 1 else 0)) / 2))
      ⟨fs.scratch.dirExists, demuxSet env, demuxSet env, fs.scratch.merged,
        fs.scratch.palette⟩).1 = true :=
    (mergeSeq_fst_iff env _ _).mpr hallL
  rw [if_pos hms]
  have hmerged := mergeSeq_merged_of_all env (List.range ((env.frameCount +
      env.frameCount + fs.scratch.merged.card +
      (if fs.scratch.palette then 1 else 0)) / 2))
      ⟨fs.scratch.dirExists, demuxSet env, demuxSet env, fs.scratch.merged,
        fs.scratch.palette⟩ hallL
  rw [toFinset_listRange] at hmerged
  rw [hmerged]
  rw [if_neg (by rw [hnumF] at hstall; exact hstall)]
  refine ⟨rfl, ?_, ?_, ?_, ?_⟩
  · simp [mergeSeq_frames]
  · simp [mergeSeq_alphas]
  · simp [hmerged, hnumF]
  · simp [mergeSeq_palette]

theorem convert_heic_eq (env : Env) (fr toP : FPath) (conv : ImageConverter)
    (ot : ImageType) (fs : FS) (c : Content) (hsrc : fs.srcContent = some c) :
    convert_heic env fr toP conv ot fs =
      if (env.reprOk fr && env.reprOk toP && env.stillOk) = true then
        (some (), { fs with destContent := some (Content.still ot.toStr c) })
      else (none, fs) := by
  unfold convert_heic
  simp only [hsrc]
  by_cases h1 : (env.reprOk fr && env.reprOk toP) = true
  · rw [if_pos h1]
    by_cases h2 : env.stillOk = true
    · rw [if_pos h2, if_pos (by simp_all [Bool.and_eq_true])]
    · rw [if_neg h2, if_neg (by simp_all [Bool.and_eq_true])]
  · rw [if_neg h1, if_neg (by simp_all [Bool.and_eq_true])]

theorem tryStd_eq (env : Env) (fr toP : FPath) (ic : ImageConverter)
    (ot : ImageType) (fs : FS) (c : Content) (hsrc : fs.srcContent = some c) :
    tryStandardThenFallback env fr toP ic ot fs =
      if (env.reprOk fr && env.reprOk toP && env.stillOk) = true then
        (some (MediaType.image ot.toStr), toP,
          { fs with destContent := some (Content.still ot.toStr c) })
      else
        (none, toP,
          { fs with destContent := some c,
                    log := fs.log ++ ["Unable to convert " ++ fr.render] }) := by
  unfold tryStandardThenFallback
  rw [convert_heic_eq env fr toP ic ot fs c hsrc]
  by_cases h : (env.reprOk fr && env.reprOk toP && env.stillOk) = true
  · rw [if_pos h, if_pos h]
  · rw [if_neg h, if_neg h]
    unfold copy_raw
    simp only [hsrc]

/-! Reduction of `sticker_copy_convert` by subtype family. -/

theorem sticker_none_eq (env : Env) (fr stub : FPath) (ic : ImageConverter)
    (vc : Option VideoConverter) (mime : MediaType) (fs : FS)
    (hmime : stickerOutputType mime = none) :
    sticker_copy_convert env fr stub ic vc mime fs =
      (none, stub, copy_raw fr stub fs) := by
  unfold sticker_copy_convert
  rw [hmime]

theorem sticker_png_eq (env : Env) (fr stub : FPath) (ic : ImageConverter)
    (vc : Option VideoConverter) (mime : MediaType) (fs : FS)
    (hmime : stickerOutputType mime = some ImageType.png) :
    sticker_copy_convert env fr stub ic vc mime fs =
      tryStandardThenFallback env fr (stub.setExtension ImageType.png.toStr)
        ic ImageType.png fs := by
  unfold sticker_copy_convert tryStandardThenFallback
  rw [hmime]

theorem sticker_gif_none_eq (env : Env) (fr stub : FPath) (ic : ImageConverter)
    (mime : MediaType) (fs : FS)
    (hmime : stickerOutputType mime = some ImageType.gif) :
    sticker_copy_convert env fr stub ic none mime fs =
      tryStandardThenFallback env fr (stub.setExtension ImageType.gif.toStr)
        ic ImageType.gif fs := by
  unfold sticker_copy_convert tryStandardThenFallback
  rw [hmime]

theorem sticker_gif_eq (env : Env) (fr stub : FPath) (ic : ImageConverter)
    (v : VideoConverter) (mime : MediaType) (fs : FS)
    (hmime : stickerOutputType mime = some ImageType.gif) :
    sticker_copy_convert env fr stub ic (some v) mime fs =
      match convert_heics env fr (stub.setExtension ImageType.gif.toStr) v fs with
      | (some _, fs1) =>
        (some (MediaType.image ImageType.gif.toStr),
          stub.setExtension ImageType.gif.toStr, fs1)
      | (none, fs1) =>
        tryStandardThenFallback env fr (stub.setExtension ImageType.gif.toStr)
          ic ImageType.gif fs1 := by
  unfold sticker_copy_convert tryStandardThenFallback
  rw [hmime]

theorem sticker_gif_some_eq (env : Env) (fr stub : FPath)
    (ic : ImageConverter) (v : VideoConverter) (mime : MediaType)
    (fs fs1 : FS) (hmime : stickerOutputType mime = some ImageType.gif)
    (h : convert_heics env fr (stub.setExtension ImageType.gif.toStr) v fs =
      (some (), fs1)) :
    sticker_copy_convert env fr stub ic (some v) mime fs =
      (some (MediaType.image ImageType.gif.toStr),
        stub.setExtension ImageType.gif.toStr, fs1) := by
  rw [sticker_gif_eq env fr stub ic v mime fs hmime, h]

theorem sticker_gif_fail_eq (env : Env) (fr stub : FPath)
    (ic : ImageConverter) (v : VideoConverter) (mime : MediaType)
    (fs fs1 : FS) (hmime : stickerOutputType mime = some ImageType.gif)
    (h : convert_heics env fr (stub.setExtension ImageType.gif.toStr) v fs =
      (none, fs1)) :
    sticker_copy_convert env fr stub ic (some v) mime fs =
      tryStandardThenFallback env fr (stub.setExtension ImageType.gif.toStr)
        ic ImageType.gif fs1 := by
  rw [sticker_gif_eq env fr stub ic v mime fs hmime, h]

theorem convert_heics_stall_effect (env : Env) (fr toP : FPath)
    (v : VideoConverter) (fs : FS) (c : Content) (hsrc : fs.srcContent = some c)
    (hsubf : fs.scratch.frames ⊆ demuxSet env)
    (hsuba : fs.scratch.alphas ⊆ demuxSet env)
    (hr : (env.reprOk fr && env.reprOk toP) = true)
    (hmk : env.mkdirOk = true)
    (hdf : env.demuxFramesOk = true) (hda : env.demuxAlphaOk = true)
    (hall : ∀ i < numF env fs.scratch.merged fs.scratch.palette,
      i ∈ demuxSet env ∧ env.mergeOk i = true)
    (hstall : ¬(1 ∈ fs.scratch.merged ∪
      Finset.range (numF env fs.scratch.merged fs.scratch.palette) ∧
      env.paletteOk = true)) :
    (convert_heics env fr toP v fs).1 = none ∧
      (convert_heics env fr toP v fs).2.scratch.merged =
        fs.scratch.merged ∪
          Finset.range (numF env fs.scratch.merged fs.scratch.palette) ∧
      (convert_heics env fr toP v fs).2.scratch.palette = fs.scratch.palette := by
  unfold convert_heics
  rw [if_pos hr]
  by_cases hde : fs.scratch.dirExists = true
  · rw [if_pos hde]
    have h := pipeline_stall_effect env fr toP v fs c hsrc hsubf hsuba hdf hda
      hall hstall
    exact ⟨h.1, h.2.2.2.1, h.2.2.2.2⟩
  · rw [if_neg hde, if_pos hmk]
    have h := pipeline_stall_effect env fr toP v
      { fs with scratch := { fs.scratch with dirExists := true } } c hsrc
      hsubf hsuba hdf hda hall hstall
    exact ⟨h.1, h.2.2.2.1, h.2.2.2.2⟩

theorem tryStd_state (env : Env) (fr toP : FPath) (ic : ImageConverter)
    (ot : ImageType) (fs : FS) (c : Content) (hsrc : fs.srcContent = some c) :
    (tryStandardThenFallback env fr toP ic ot fs).2.2.scratch = fs.scratch ∧
      (tryStandardThenFallback env fr toP ic ot fs).2.2.srcContent =
        fs.srcContent := by
  rw [tryStd_eq env fr toP ic ot fs c hsrc]
  split_ifs <;> exact ⟨rfl, rfl⟩

/-! Concrete fixtures for the counterexamples and witnesses. -/

/-- A source sticker path and a destination stub that still carries the
original heic extension. -/
def frSrc : FPath := ⟨"sticker", "heic"⟩

def stub0 : FPath := ⟨"out", "heic"⟩

/-- Initial file-system state: the source exists, the destination does not,
the scratch directory is absent and empty. -/
def fs0 : FS := ⟨some (Content.raw 0), none, emptyScratch, []⟩

/-- Environment where every invocation succeeds; the source demuxes to two
frames per stream, numbered from 1 as ffmpeg documents. -/
def envAll : Env :=
  { reprOk := fun _ => true, mkdirOk := true, demuxFramesOk := true,
    demuxAlphaOk := true, frameCount := 2, demuxStart := 1,
    mergeOk := fun _ => true, paletteOk := true, assembleOk := true,
    removeOk := true, stillOk := true }

def envDemuxFail : Env := { envAll with demuxFramesOk := false }

def envAlphaFail : Env := { envAll with demuxAlphaOk := false }

def envStillFail : Env := { envAll with stillOk := false }

def mimeHeic : MediaType := MediaType.image ("heic")

def mimeHeics : MediaType := MediaType.image ("heics")

/-! Claim theorems for the sticker converter. -/

/-- C5 (code bug): with every external invocation succeeding and a
two-frame animated sticker whose streams demux to `frame_0001, frame_0002`
and `alpha_0001, alpha_0002` (ffmpeg's documented 1-based numbering), the
merge loop iterates indices 0 and 1: the merge of index 0 reads the
nonexistent `frame_0000`/`alpha_0000` and fails, aborting the attempt, no
merged frame is produced at all, and the demuxed pair at index 2 is never
merged — contradicting the claim that every available frame/mask pair is
merged. -/
theorem C5_merge_offbyone :
    (convert_heics envAll frSrc (stub0.setExtension "gif")
        VideoConverter.ffmpeg fs0).1 = none ∧
      (convert_heics envAll frSrc (stub0.setExtension "gif")
        VideoConverter.ffmpeg fs0).2.scratch.merged = ∅ ∧
      2 ∈ (convert_heics envAll frSrc (stub0.setExtension "gif")
        VideoConverter.ffmpeg fs0).2.scratch.frames ∧
      2 ∈ (convert_heics envAll frSrc (stub0.setExtension "gif")
        VideoConverter.ffmpeg fs0).2.scratch.alphas ∧
      0 ∉ (convert_heics envAll frSrc (stub0.setExtension "gif")
        VideoConverter.ffmpeg fs0).2.scratch.frames := by
  decide

/-- C3: a subtype outside the known still and animated sticker sets is
passed through: outcome `None` (passthrough copy), destination path and
extension unchanged, destination byte-identical to the source, scratch and
log untouched. -/
theorem C3_passthrough (env : Env) (fr stub : FPath) (ic : ImageConverter)
    (vc : Option VideoConverter) (mime : MediaType) (fs : FS) (c : Content)
    (hsrc : fs.srcContent = some c)
    (hmime : stickerOutputType mime = none) :
    sticker_copy_convert env fr stub ic vc mime fs =
      (none, stub, { fs with destContent := some c }) := by
  rw [sticker_none_eq env fr stub ic vc mime fs hmime]
  unfold copy_raw
  rw [hsrc]

/-- C3 witness: a jpeg attachment is copied through unchanged. -/
theorem C3_passthrough_witness :
    sticker_copy_convert envAll frSrc stub0 ImageConverter.sips none
        (MediaType.image ("jpeg")) fs0 =
      (none, stub0, { fs0 with destContent := some (Content.raw 0) }) :=
  C3_passthrough envAll frSrc stub0 ImageConverter.sips none
    (MediaType.image ("jpeg")) fs0 (Content.raw 0) rfl (by decide)

/-- C1 counterexample: the first demux stage of the animated pipeline fails
(the attempt returns `None`), yet the outcome of `sticker_copy_convert` for
the animated sticker is still `Converted` to gif — produced by the standard
still-image tool on the fallthrough path.  This refutes the claim that the
outcome is Converted to the animated format only if every pipeline stage
succeeds. -/
theorem C1_counterexample :
    (convert_heics envDemuxFail frSrc (stub0.setExtension "gif")
        VideoConverter.ffmpeg fs0).1 = none ∧
      (sticker_copy_convert envDemuxFail frSrc stub0 ImageConverter.sips
        (some VideoConverter.ffmpeg) mimeHeics fs0).1 =
        some (MediaType.image ("gif")) := by
  decide

/-- C1 (amended): for an animated-sticker subtype, the animated pipeline is
attempted only when a video tool is configured (without one the scratch
directory is never touched); when the animated attempt fails the converter
falls through to exactly the TryStandard→Fallback cascade, and the failed
attempt leaves either the previous destination content or a completely
assembled animated file at the destination — never a partial one.  (The
final outcome may still be Converted to gif via the still tool; see the
counterexample.) -/
theorem C1_anim_fallback (env : Env) (fr stub : FPath) (ic : ImageConverter)
    (v : VideoConverter) (mime : MediaType) (fs : FS) (c : Content)
    (hsrc : fs.srcContent = some c)
    (hmime : stickerOutputType mime = some ImageType.gif) :
    (sticker_copy_convert env fr stub ic none mime fs).2.2.scratch =
        fs.scratch ∧
      (∀ fs1, convert_heics env fr (stub.setExtension ImageType.gif.toStr) v
          fs = (none, fs1) →
        sticker_copy_convert env fr stub ic (some v) mime fs =
          tryStandardThenFallback env fr
            (stub.setExtension ImageType.gif.toStr) ic ImageType.gif fs1 ∧
        (fs1.destContent = fs.destContent ∨
          fs1.destContent = some (Content.animatedGif c))) := by
  constructor
  · rw [sticker_gif_none_eq env fr stub ic mime fs hmime,
      tryStd_eq env fr _ ic _ fs c hsrc]
    split_ifs <;> rfl
  · intro fs1 h1
    constructor
    · rw [sticker_gif_eq env fr stub ic v mime fs hmime, h1]
    · have h2 := convert_heics_dest_cases env fr
        (stub.setExtension ImageType.gif.toStr) v fs c hsrc
      rw [h1] at h2
      exact h2

/-- C1 witness: concrete animated-sticker run in which the demux stage
fails; the hypotheses of the amended theorem are discharged and the
fallthrough equation is instantiated. -/
theorem C1_anim_fallback_witness :
    (sticker_copy_convert envDemuxFail frSrc stub0 ImageConverter.sips none
        mimeHeics fs0).2.2.scratch = fs0.scratch ∧
      (∀ fs1, convert_heics envDemuxFail frSrc
          (stub0.setExtension ImageType.gif.toStr) VideoConverter.ffmpeg
          fs0 = (none, fs1) →
        sticker_copy_convert envDemuxFail frSrc stub0 ImageConverter.sips
            (some VideoConverter.ffmpeg) mimeHeics fs0 =
          tryStandardThenFallback envDemuxFail frSrc
            (stub0.setExtension ImageType.gif.toStr) ImageConverter.sips
            ImageType.gif fs1 ∧
        (fs1.destContent = fs0.destContent ∨
          fs1.destContent = some (Content.animatedGif (Content.raw 0)))) :=
  C1_anim_fallback envDemuxFail frSrc stub0 ImageConverter.sips
    VideoConverter.ffmpeg mimeHeics fs0 (Content.raw 0) rfl (by decide)

/-- C2 counterexample: a still sticker whose still-tool invocation fails is
fallback-copied, but the destination path's extension has already been
changed from the stub's original `heic` to the target `png` before the
attempts — the raw source bytes end up under the converted extension,
refuting the claim that the destination's original extension is left
unchanged. -/
theorem C2_counterexample :
    (sticker_copy_convert envStillFail frSrc stub0 ImageConverter.sips none
        mimeHeic fs0).1 = none ∧
      (sticker_copy_convert envStillFail frSrc stub0 ImageConverter.sips none
        mimeHeic fs0).2.1.ext = "png" ∧
      stub0.ext = "heic" ∧
      (sticker_copy_convert envStillFail frSrc stub0 ImageConverter.sips none
        mimeHeic fs0).2.2.destContent = some (Content.raw 0) := by
  decide

/-- C2 (amended): whenever a conversion is attempted (the subtype maps to a
target format), the animated attempt — if applicable — fails, and the
still-image tool invocation fails (unrepresentable path or tool failure),
the call ends in the fallback: outcome `None` (passthrough copy), the
destination is byte-identical to the source, a warning naming the
unconverted source is emitted, and the returned destination path carries the
target format's extension, the stub's original extension having been
replaced before the attempts. -/
theorem C2_fallback_copy (env : Env) (fr stub : FPath) (ic : ImageConverter)
    (vc : Option VideoConverter) (mime : MediaType) (ot : ImageType)
    (fs : FS) (c : Content)
    (hsrc : fs.srcContent = some c)
    (hmime : stickerOutputType mime = some ot)
    (hanim : ∀ v, vc = some v → ot = ImageType.gif →
      (convert_heics env fr (stub.setExtension ImageType.gif.toStr) v fs).1 =
        none)
    (hstill : (env.reprOk fr && env.reprOk (stub.setExtension ot.toStr) &&
      env.stillOk) = false) :
    (sticker_copy_convert env fr stub ic vc mime fs).1 = none ∧
      (sticker_copy_convert env fr stub ic vc mime fs).2.1 =
        stub.setExtension ot.toStr ∧
      (sticker_copy_convert env fr stub ic vc mime fs).2.2.destContent =
        some c ∧
      ("Unable to convert " ++ fr.render) ∈
        (sticker_copy_convert env fr stub ic vc mime fs).2.2.log := by
  have hcond : ¬((env.reprOk fr && env.reprOk (stub.setExtension ot.toStr) &&
      env.stillOk) = true) := by
    rw [hstill]
    simp
  cases ot with
  | png =>
    rw [sticker_png_eq env fr stub ic vc mime fs hmime,
      tryStd_eq env fr _ ic _ fs c hsrc, if_neg hcond]
    refine ⟨rfl, rfl, rfl, ?_⟩
    simp
  | gif =>
    cases vc with
    | none =>
      rw [sticker_gif_none_eq env fr stub ic mime fs hmime,
        tryStd_eq env fr _ ic _ fs c hsrc, if_neg hcond]
      refine ⟨rfl, rfl, rfl, ?_⟩
      simp
    | some v =>
      have hA := hanim v rfl rfl
      rw [sticker_gif_eq env fr stub ic v mime fs hmime]
      rcases ho : convert_heics env fr (stub.setExtension ImageType.gif.toStr)
        v fs with ⟨o, fs1⟩
      have ho1 : o = none := by
        rw [ho] at hA
        exact hA
      subst ho1
      have hsrc1 : fs1.srcContent = some c := by
        have := convert_heics_src env fr
          (stub.setExtension ImageType.gif.toStr) v fs
        rw [ho, hsrc] at this
        exact this
      dsimp only
      rw [tryStd_eq env fr _ ic _ fs1 c hsrc1, if_neg hcond]
      refine ⟨rfl, rfl, rfl, ?_⟩
      simp

/-- C2 witness: a still sticker, still tool failing; the fallback yields a
passthrough copy under the png extension with a warning. -/
theorem C2_fallback_copy_witness :
    (sticker_copy_convert envStillFail frSrc stub0 ImageConverter.sips none
        mimeHeic fs0).1 = none ∧
      (sticker_copy_convert envStillFail frSrc stub0 ImageConverter.sips none
        mimeHeic fs0).2.1 = stub0.setExtension ImageType.png.toStr ∧
      (sticker_copy_convert envStillFail frSrc stub0 ImageConverter.sips none
        mimeHeic fs0).2.2.destContent = some (Content.raw 0) ∧
      ("Unable to convert " ++ frSrc.render) ∈
        (sticker_copy_convert envStillFail frSrc stub0 ImageConverter.sips
          none mimeHeic fs0).2.2.log :=
  C2_fallback_copy envStillFail frSrc stub0 ImageConverter.sips none mimeHeic
    ImageType.png fs0 (Content.raw 0) rfl (by decide)
    (fun v hv => by cases hv) (by decide)

/-- C4 counterexample: the alpha-demux stage fails after the frame demux
succeeded; the attempt returns `None` but the scratch directory still exists
and still holds the demuxed frames — it is not removed when the attempt
fails, refuting removal "regardless of success". -/
theorem C4_counterexample :
    (convert_heics envAlphaFail frSrc (stub0.setExtension "gif")
        VideoConverter.ffmpeg fs0).1 = none ∧
      (convert_heics envAlphaFail frSrc (stub0.setExtension "gif")
        VideoConverter.ffmpeg fs0).2.scratch.dirExists = true ∧
      (convert_heics envAlphaFail frSrc (stub0.setExtension "gif")
        VideoConverter.ffmpeg fs0).2.scratch.frames ≠ ∅ := by
  decide

/-- C4 (amended): when the paths are representable and directory creation
succeeds, the scratch workspace is ensured at the start of the animated
attempt and is fully removed only when the whole attempt succeeds; on any
stage failure the attempt returns with the directory still in place. -/
theorem C4_scratch_lifecycle (env : Env) (fr toP : FPath)
    (v : VideoConverter) (fs : FS) (c : Content)
    (hsrc : fs.srcContent = some c)
    (hr : (env.reprOk fr && env.reprOk toP) = true)
    (hmk : env.mkdirOk = true) :
    ((convert_heics env fr toP v fs).1 = some () →
      (convert_heics env fr toP v fs).2.scratch = emptyScratch) ∧
      ((convert_heics env fr toP v fs).1 = none →
        (convert_heics env fr toP v fs).2.scratch.dirExists = true) := by
  constructor
  · intro h
    rw [convert_heics_some_effect env fr toP v fs c hsrc h]
  · intro h
    exact convert_heics_none_dir env fr toP v fs hr hmk h

/-- C4 witness: concrete failing attempt leaving the directory behind, via
the amended theorem. -/
theorem C4_scratch_lifecycle_witness :
    ((convert_heics envAlphaFail frSrc (stub0.setExtension "gif")
        VideoConverter.ffmpeg fs0).1 = some () →
      (convert_heics envAlphaFail frSrc (stub0.setExtension "gif")
        VideoConverter.ffmpeg fs0).2.scratch = emptyScratch) ∧
      ((convert_heics envAlphaFail frSrc (stub0.setExtension "gif")
          VideoConverter.ffmpeg fs0).1 = none →
        (convert_heics envAlphaFail frSrc (stub0.setExtension "gif")
          VideoConverter.ffmpeg fs0).2.scratch.dirExists = true) :=
  C4_scratch_lifecycle envAlphaFail frSrc (stub0.setExtension "gif")
    VideoConverter.ffmpeg fs0 (Content.raw 0) rfl (by decide) rfl

/-- The outcome, the returned path and the destination content of the
TryStandard→Fallback cascade depend only on the environment and the source
content, not on the rest of the starting file-system state. -/
theorem tryStd_cascade_idem (env : Env) (fr toP : FPath) (ic : ImageConverter)
    (ot : ImageType) (g1 g2 : FS) (c : Content)
    (h1 : g1.srcContent = some c) (h2 : g2.srcContent = some c) :
    (tryStandardThenFallback env fr toP ic ot g2).1 =
        (tryStandardThenFallback env fr toP ic ot g1).1 ∧
      (tryStandardThenFallback env fr toP ic ot g2).2.1 =
        (tryStandardThenFallback env fr toP ic ot g1).2.1 ∧
      (tryStandardThenFallback env fr toP ic ot g2).2.2.destContent =
        (tryStandardThenFallback env fr toP ic ot g1).2.2.destContent := by
  rw [tryStd_eq env fr toP ic ot g1 c h1, tryStd_eq env fr toP ic ot g2 c h2]
  split_ifs <;> exact ⟨rfl, rfl, rfl⟩

/-- If a first animated attempt from a clean scratch state failed, a second
attempt from the state the failure left behind fails as well: the
deterministic environment fails the same state-independent stage, or fails
the merge loop (whose index range only grows with the leftover files), or —
when the first attempt stalled at the palette stage for lack of
`merged_0001` — stalls there again. -/
theorem heicsOk_no_replay (env : Env) (fr toP : FPath) (v : VideoConverter)
    (fs : FS) (c : Content) (hsrc : fs.srcContent = some c)
    (hfr : fs.scratch.frames = ∅) (hal : fs.scratch.alphas = ∅)
    (hme : fs.scratch.merged = ∅) (hpa : fs.scratch.palette = false)
    (hmk : env.mkdirOk = true)
    (h1 : (convert_heics env fr toP v fs).1 = none)
    (hOk2 : heicsOk env fr toP
      (convert_heics env fr toP v fs).2.scratch.merged
      (convert_heics env fr toP v fs).2.scratch.palette) : False := by
  have hsubf : fs.scratch.frames ⊆ demuxSet env := by
    rw [hfr]
    exact Finset.empty_subset _
  have hsuba : fs.scratch.alphas ⊆ demuxSet env := by
    rw [hal]
    exact Finset.empty_subset _
  have hnot : ¬ heicsOk env fr toP ∅ false := by
    intro hOk
    have h := (convert_heics_some_iff env fr toP v fs c hsrc hsubf hsuba
      hmk).mpr (by rw [hme, hpa]; exact hOk)
    rw [h1] at h
    cases h
  obtain ⟨hr1, hr2, hdf, hda, hmerge2, hmem2, hpal, hasm, hrem⟩ := hOk2
  have hn0 : numF env (∅ : Finset Nat) false = env.frameCount := by
    simp only [numF, Finset.card_empty, Bool.false_eq_true, if_false]
    omega
  by_cases hmg : ∀ i < numF env (∅ : Finset Nat) false,
      i ∈ demuxSet env ∧ env.mergeOk i = true
  case neg =>
    apply hmg
    intro i hi
    apply hmerge2
    have hle : numF env (∅ : Finset Nat) false ≤
        numF env (convert_heics env fr toP v fs).2.scratch.merged
          (convert_heics env fr toP v fs).2.scratch.palette := by
      simp only [numF, Finset.card_empty, Bool.false_eq_true, if_false]
      apply Nat.div_le_div_right
      split_ifs <;> omega
    omega
  case pos =>
  have hmem1 : (1 : Nat) ∉ Finset.range (numF env (∅ : Finset Nat) false) := by
    intro hx
    exact hnot ⟨hr1, hr2, hdf, hda, hmg, by
      rw [Finset.empty_union]
      exact hx, hpal, hasm, hrem⟩
  have hstall := convert_heics_stall_effect env fr toP v fs c hsrc hsubf hsuba
    (Bool.and_eq_true _ _ |>.mpr ⟨hr1, hr2⟩) hmk hdf hda
    (by rw [hme, hpa]; exact hmg)
    (by
      rw [hme, hpa]
      rintro ⟨hx, -⟩
      rw [Finset.empty_union] at hx
      exact hmem1 hx)
  rw [hstall.2.1, hstall.2.2, hme, hpa, Finset.empty_union] at hmem2
  have hf1 : env.frameCount ≤ 1 := by
    by_contra hgt
    exact hmem1 (by
      rw [hn0]
      exact Finset.mem_range.mpr (by omega))
  rw [hn0] at hmem2
  rcases Finset.mem_union.mp hmem2 with hx | hx
  · exact absurd (Finset.mem_range.mp hx) (by omega)
  · have hx2 := Finset.mem_range.mp hx
    have hcard : numF env (Finset.range env.frameCount) false =
        (env.frameCount + env.frameCount + env.frameCount) / 2 := by
      simp only [numF, Finset.card_range, Bool.false_eq_true, if_false]
      omega
    rw [hcard] at hx2
    omega

/-- C9: running `sticker_copy_convert` twice on the same unchanged source,
with the same destination stub, tool configuration and deterministic
external-tool environment, starting from a scratch directory holding no
intermediate files, yields the same outcome, the same final destination
path, and the same destination content both times. -/
theorem C9_convert_idempotent (env : Env) (fr stub : FPath)
    (ic : ImageConverter) (vc : Option VideoConverter) (mime : MediaType)
    (fs : FS) (c : Content)
    (hsrc : fs.srcContent = some c)
    (hfr : fs.scratch.frames = ∅) (hal : fs.scratch.alphas = ∅)
    (hme : fs.scratch.merged = ∅) (hpa : fs.scratch.palette = false)
    (hmk : env.mkdirOk = true) :
    (sticker_copy_convert env fr stub ic vc mime
        ((sticker_copy_convert env fr stub ic vc mime fs).2.2)).1 =
      (sticker_copy_convert env fr stub ic vc mime fs).1 ∧
    (sticker_copy_convert env fr stub ic vc mime
        ((sticker_copy_convert env fr stub ic vc mime fs).2.2)).2.1 =
      (sticker_copy_convert env fr stub ic vc mime fs).2.1 ∧
    (sticker_copy_convert env fr stub ic vc mime
        ((sticker_copy_convert env fr stub ic vc mime fs).2.2)).2.2.destContent =
      (sticker_copy_convert env fr stub ic vc mime fs).2.2.destContent := by
  cases hm : stickerOutputType mime with
  | none =>
    have ecopy : ∀ g : FS, g.srcContent = some c →
        copy_raw fr stub g = { g with destContent := some c } := by
      intro g hg
      unfold copy_raw
      rw [hg]
    have e1 : sticker_copy_convert env fr stub ic vc mime fs =
        (none, stub, { fs with destContent := some c }) := by
      rw [sticker_none_eq env fr stub ic vc mime fs hm, ecopy fs hsrc]
    rw [e1]
    dsimp only
    rw [sticker_none_eq env fr stub ic vc mime _ hm,
      ecopy { fs with destContent := some c } hsrc]
    exact ⟨rfl, rfl, rfl⟩
  | some ot =>
    cases ot with
    | png =>
      rw [sticker_png_eq env fr stub ic vc mime fs hm]
      have hsrc1 : (tryStandardThenFallback env fr
          (stub.setExtension ImageType.png.toStr) ic ImageType.png
          fs).2.2.srcContent = some c :=
        ((tryStd_state env fr _ ic _ fs c hsrc).2).trans hsrc
      rw [sticker_png_eq env fr stub ic vc mime
        ((tryStandardThenFallback env fr
          (stub.setExtension ImageType.png.toStr) ic ImageType.png fs).2.2) hm]
      exact tryStd_cascade_idem env fr _ ic _ fs _ c hsrc hsrc1
    | gif =>
      cases vc with
      | none =>
        rw [sticker_gif_none_eq env fr stub ic mime fs hm]
        have hsrc1 : (tryStandardThenFallback env fr
            (stub.setExtension ImageType.gif.toStr) ic ImageType.gif
            fs).2.2.srcContent = some c :=
          ((tryStd_state env fr _ ic _ fs c hsrc).2).trans hsrc
        rw [sticker_gif_none_eq env fr stub ic mime
          ((tryStandardThenFallback env fr
            (stub.setExtension ImageType.gif.toStr) ic ImageType.gif
            fs).2.2) hm]
        exact tryStd_cascade_idem env fr _ ic _ fs _ c hsrc hsrc1
      | some v =>
        have hsubf : fs.scratch.frames ⊆ demuxSet env := by
          rw [hfr]
          exact Finset.empty_subset _
        have hsuba : fs.scratch.alphas ⊆ demuxSet env := by
          rw [hal]
          exact Finset.empty_subset _
        rcases ho1 : convert_heics env fr
          (stub.setExtension ImageType.gif.toStr) v fs with ⟨o1, fsA⟩
        have hsrcA : fsA.srcContent = some c := by
          have h := convert_heics_src env fr
            (stub.setExtension ImageType.gif.toStr) v fs
          rw [ho1, hsrc] at h
          exact h
        cases o1 with
        | some u =>
          cases u
          have h1 : (convert_heics env fr
              (stub.setExtension ImageType.gif.toStr) v fs).1 = some () := by
            rw [ho1]
          have hfsA : fsA =
              { fs with destContent := some (Content.animatedGif c),
                        scratch := emptyScratch } := by
            rw [← convert_heics_some_effect env fr
              (stub.setExtension ImageType.gif.toStr) v fs c hsrc h1, ho1]
          have hOk : heicsOk env fr (stub.setExtension ImageType.gif.toStr)
              (∅ : Finset Nat) false := by
            have h := (convert_heics_some_iff env fr
              (stub.setExtension ImageType.gif.toStr) v fs c hsrc hsubf hsuba
              hmk).mp h1
            rw [hme, hpa] at h
            exact h
          have h2 : (convert_heics env fr
              (stub.setExtension ImageType.gif.toStr) v fsA).1 = some () := by
            rw [convert_heics_some_iff env fr
              (stub.setExtension ImageType.gif.toStr) v fsA c hsrcA
              (by rw [hfsA]; exact Finset.empty_subset _)
              (by rw [hfsA]; exact Finset.empty_subset _) hmk]
            rw [hfsA]
            exact hOk
          rcases ho2 : convert_heics env fr
            (stub.setExtension ImageType.gif.toStr) v fsA with ⟨o2, fsB⟩
          have ho2' : o2 = some () := by
            rw [ho2] at h2
            exact h2
          subst ho2'
          rw [sticker_gif_some_eq env fr stub ic v mime fs fsA hm ho1,
            sticker_gif_some_eq env fr stub ic v mime fsA fsB hm ho2]
          refine ⟨rfl, rfl, ?_⟩
          have hfsB : fsB =
              { fsA with destContent := some (Content.animatedGif c),
                         scratch := emptyScratch } := by
            rw [← convert_heics_some_effect env fr
              (stub.setExtension ImageType.gif.toStr) v fsA c hsrcA h2, ho2]
          rw [hfsB, hfsA]
        | none =>
          have h1 : (convert_heics env fr
              (stub.setExtension ImageType.gif.toStr) v fs).1 = none := by
            rw [ho1]
          rw [sticker_gif_fail_eq env fr stub ic v mime fs fsA hm ho1]
          have hstA := tryStd_state env fr
            (stub.setExtension ImageType.gif.toStr) ic ImageType.gif fsA c
            hsrcA
          have hsrc2 : (tryStandardThenFallback env fr
              (stub.setExtension ImageType.gif.toStr) ic ImageType.gif
              fsA).2.2.srcContent = some c := hstA.2.trans hsrcA
          have hsubA := convert_heics_scratch_sub env fr
            (stub.setExtension ImageType.gif.toStr) v fs hsubf hsuba
          rw [ho1] at hsubA
          have hsub2f : (tryStandardThenFallback env fr
              (stub.setExtension ImageType.gif.toStr) ic ImageType.gif
              fsA).2.2.scratch.frames ⊆ demuxSet env := by
            rw [hstA.1]
            exact hsubA.1
          have hsub2a : (tryStandardThenFallback env fr
              (stub.setExtension ImageType.gif.toStr) ic ImageType.gif
              fsA).2.2.scratch.alphas ⊆ demuxSet env := by
            rw [hstA.1]
            exact hsubA.2
          have h2 : (convert_heics env fr
              (stub.setExtension ImageType.gif.toStr) v
              ((tryStandardThenFallback env fr
                (stub.setExtension ImageType.gif.toStr) ic ImageType.gif
                fsA).2.2)).1 = none := by
            rcases hx : (convert_heics env fr
                (stub.setExtension ImageType.gif.toStr) v
                ((tryStandardThenFallback env fr
                  (stub.setExtension ImageType.gif.toStr) ic ImageType.gif
                  fsA).2.2)).1 with _ | u
            · rfl
            · exfalso
              cases u
              have hOk2 := (convert_heics_some_iff env fr
                (stub.setExtension ImageType.gif.toStr) v _ c hsrc2 hsub2f
                hsub2a hmk).mp hx
              rw [hstA.1] at hOk2
              exact heicsOk_no_replay env fr
                (stub.setExtension ImageType.gif.toStr) v fs c hsrc hfr hal
                hme hpa hmk h1 (by rw [ho1]; exact hOk2)
          rcases ho2 : convert_heics env fr
            (stub.setExtension ImageType.gif.toStr) v
            ((tryStandardThenFallback env fr
              (stub.setExtension ImageType.gif.toStr) ic ImageType.gif
              fsA).2.2) with ⟨o2, fsB⟩
          have ho2' : o2 = none := by
            rw [ho2] at h2
            exact h2
          subst ho2'
          rw [sticker_gif_fail_eq env fr stub ic v mime
            ((tryStandardThenFallback env fr
              (stub.setExtension ImageType.gif.toStr) ic ImageType.gif
              fsA).2.2) fsB hm ho2]
          have hsrcB : fsB.srcContent = some c := by
            have h := convert_heics_src env fr
              (stub.setExtension ImageType.gif.toStr) v
              ((tryStandardThenFallback env fr
                (stub.setExtension ImageType.gif.toStr) ic ImageType.gif
                fsA).2.2)
            rw [ho2, hsrc2] at h
            exact h
          exact tryStd_cascade_idem env fr
            (stub.setExtension ImageType.gif.toStr) ic ImageType.gif fsA fsB
            c hsrcA hsrcB

/-- C9 witness: concrete run (all tools succeeding, animated sticker); both
invocations agree on outcome, path and destination content. -/
theorem C9_convert_idempotent_witness :
    (sticker_copy_convert envAll frSrc stub0 ImageConverter.sips
        (some VideoConverter.ffmpeg) mimeHeics
        ((sticker_copy_convert envAll frSrc stub0 ImageConverter.sips
          (some VideoConverter.ffmpeg) mimeHeics fs0).2.2)).1 =
      (sticker_copy_convert envAll frSrc stub0 ImageConverter.sips
        (some VideoConverter.ffmpeg) mimeHeics fs0).1 ∧
    (sticker_copy_convert envAll frSrc stub0 ImageConverter.sips
        (some VideoConverter.ffmpeg) mimeHeics
        ((sticker_copy_convert envAll frSrc stub0 ImageConverter.sips
          (some VideoConverter.ffmpeg) mimeHeics fs0).2.2)).2.1 =
      (sticker_copy_convert envAll frSrc stub0 ImageConverter.sips
        (some VideoConverter.ffmpeg) mimeHeics fs0).2.1 ∧
    (sticker_copy_convert envAll frSrc stub0 ImageConverter.sips
        (some VideoConverter.ffmpeg) mimeHeics
        ((sticker_copy_convert envAll frSrc stub0 ImageConverter.sips
          (some VideoConverter.ffmpeg) mimeHeics fs0).2.2)).2.2.destContent =
      (sticker_copy_convert envAll frSrc stub0 ImageConverter.sips
        (some VideoConverter.ffmpeg) mimeHeics fs0).2.2.destContent :=
  C9_convert_idempotent envAll frSrc stub0 ImageConverter.sips
    (some VideoConverter.ffmpeg) mimeHeics fs0 (Content.raw 0) rfl rfl rfl
    rfl rfl rfl

/-!
IdentityCache: the `State` caches and the `run_diagnostic` duplicate count
of `src/app/runtime.rs`.  `State::new` builds `chatrooms` (one entry per raw
chat), `chatroom_participants : HashMap<i32, BTreeSet<i32>>` (participant
sets compare as sets, so the order participants were observed is
irrelevant), and `real_chatrooms = Chat::dedupe(&chatroom_participants)`.
Both caches are built from the same chat rows, modelled as one list.
-/

/-- One conversation row: the raw chat ID together with its participant set
(`BTreeSet<i32>` equality is set equality). -/
structure ChatRow where
  chatId : Int
  participants : Finset Int
deriving DecidableEq

/-- Modelled from the spec: `Chat::dedupe` (imessage_database crate, not
under `src/`) groups conversations by an order-independent key built from
their participant set and, within each group, assigns the canonical ID to be
the smallest raw ID observed in that group. -/
def canonicalId (rows : List ChatRow) (r : ChatRow) : Int :=
  rows.foldr
    (fun q acc => if q.participants = r.participants then min q.chatId acc
      else acc)
    r.chatId

/-- The `real_chatrooms` map built by `State::new` (runtime.rs line 59): raw
chat ID paired with its canonical chat ID. -/
def dedupe (rows : List ChatRow) : List (Int × Int) :=
  rows.map (fun r => (r.chatId, canonicalId rows r))

/-- The `duplicated_chats` diagnostic of `run_diagnostic` (runtime.rs lines
150-151): `chatrooms.len()` minus the number of distinct values of
`real_chatrooms`. -/
def duplicatedChats (rows : List ChatRow) : Nat :=
  rows.length - ((dedupe rows).map Prod.snd).toFinset.card

theorem canonicalId_base (rows : List ChatRow) (r : ChatRow) (d : Int)
    (h : ∀ q ∈ rows, q.participants ≠ r.participants) :
    rows.foldr
      (fun q acc => if q.participants = r.participants then min q.chatId acc
        else acc) d = d := by
  induction rows with
  | nil => rfl
  | cons q rest ih =>
    simp only [List.foldr_cons]
    rw [if_neg (h q (List.mem_cons_self q rest)),
      ih (fun p hp => h p (List.mem_cons_of_mem q hp))]

theorem canonicalId_mem (rows : List ChatRow) (r : ChatRow) :
    canonicalId rows r ∈ r.chatId :: rows.map ChatRow.chatId := by
  unfold canonicalId
  induction rows with
  | nil => simp
  | cons q rest ih =>
    simp only [List.foldr_cons, List.map_cons]
    split_ifs
    · rcases min_choice q.chatId (rest.foldr
        (fun p acc => if p.participants = r.participants then min p.chatId acc
          else acc) r.chatId) with h | h
      · rw [h]
        simp
      · rw [h]
        rcases List.mem_cons.mp ih with h2 | h2
        · simp [h2]
        · simp [h2]
    · rcases List.mem_cons.mp ih with h2 | h2
      · simp [h2]
      · simp [h2]

theorem canonicalId_append_fresh (rows : List ChatRow) (extra : List ChatRow)
    (r : ChatRow) (h : ∀ q ∈ extra, q.participants ≠ r.participants) :
    canonicalId (rows ++ extra) r = canonicalId rows r := by
  unfold canonicalId
  rw [List.foldr_append, canonicalId_base extra r r.chatId h]

/-- C6: two raw conversations whose participant sets are equal as sets (for
example observed as 7,9 and 9,7) are assigned the same canonical chat ID by
the dedupe pass, and the `duplicated_chats` diagnostic — the raw chatroom
count minus the deduplicated count — grows by exactly 1 when such a pair
(with fresh IDs and a participant set no other conversation shares) is
added. -/
theorem C6_dedupe_pair (rows : List ChatRow) (a b : ChatRow)
    (hab : a.participants = b.participants)
    (hfresh : ∀ r ∈ rows, r.participants ≠ a.participants)
    (hids : ((rows ++ [a, b]).map ChatRow.chatId).Nodup) :
    canonicalId (rows ++ [a, b]) a = canonicalId (rows ++ [a, b]) b ∧
      duplicatedChats (rows ++ [a, b]) = duplicatedChats rows + 1 := by
  have hfreshA : ∀ q ∈ rows, q.participants ≠ a.participants := hfresh
  have hbase : ∀ r : ChatRow, r.participants = a.participants →
      canonicalId (rows ++ [a, b]) r = min a.chatId (min b.chatId r.chatId) := by
    intro r hr
    unfold canonicalId
    rw [List.foldr_append]
    have htail : ([a, b].foldr
        (fun q acc => if q.participants = r.participants then min q.chatId acc
          else acc) r.chatId) = min a.chatId (min b.chatId r.chatId) := by
      simp only [List.foldr_cons, List.foldr_nil]
      rw [if_pos hr.symm, if_pos ((hr.trans hab).symm)]
    rw [htail]
    exact canonicalId_base rows r _ (fun q hq h2 => hfresh q hq (h2.trans hr))
  have hminAB : ∀ x y : Int, min x (min y x) = min x y := by
    intro x y
    rcases le_total x y with h | h
    · rw [min_eq_right h, min_self, min_eq_left h]
    · rw [min_eq_left h]
  have hcanA : canonicalId (rows ++ [a, b]) a = min a.chatId b.chatId := by
    rw [hbase a rfl]
    exact hminAB a.chatId b.chatId
  have hcanB : canonicalId (rows ++ [a, b]) b = min a.chatId b.chatId := by
    rw [hbase b hab.symm, min_self]
  refine ⟨hcanA.trans hcanB.symm, ?_⟩
  have hstable : ∀ r ∈ rows,
      canonicalId (rows ++ [a, b]) r = canonicalId rows r := by
    intro r hr
    apply canonicalId_append_fresh
    intro q hq
    rcases List.mem_cons.mp hq with rfl | hq2
    · intro h2
      exact hfresh r hr (h2.symm)
    · rcases List.mem_singleton.mp hq2 with rfl
      intro h2
      exact hfresh r hr (h2.symm.trans hab.symm)
  have hmap : ((dedupe (rows ++ [a, b])).map Prod.snd) =
      (rows.map (canonicalId rows)) ++
        [min a.chatId b.chatId, min a.chatId b.chatId] := by
    unfold dedupe
    rw [List.map_map, List.map_append]
    congr 1
    · apply List.map_congr_left
      intro r hr
      exact hstable r hr
    · simp only [List.map_cons, List.map_nil, Function.comp]
      rw [hcanA, hcanB]
  have hmap0 : ((dedupe rows).map Prod.snd) = rows.map (canonicalId rows) := by
    unfold dedupe
    rw [List.map_map]
    rfl
  have hnodup := List.nodup_append.mp (by
    rw [List.map_append] at hids
    exact hids)
  have hmnotin : min a.chatId b.chatId ∉
      (rows.map (canonicalId rows)).toFinset := by
    intro hmem
    rw [List.mem_toFinset, List.mem_map] at hmem
    obtain ⟨r, hr, hre⟩ := hmem
    have hin : canonicalId rows r ∈ r.chatId :: rows.map ChatRow.chatId :=
      canonicalId_mem rows r
    have hin2 : canonicalId rows r ∈ rows.map ChatRow.chatId := by
      rcases List.mem_cons.mp hin with h2 | h2
      · rw [h2]
        exact List.mem_map.mpr ⟨r, hr, rfl⟩
      · exact h2
    have hdisj := hnodup.2.2
    rcases min_choice a.chatId b.chatId with hm | hm
    · rw [hre, hm] at hin2
      exact hdisj hin2 (by simp)
    · rw [hre, hm] at hin2
      exact hdisj hin2 (by simp)
  have hcardeq : ((dedupe (rows ++ [a, b])).map Prod.snd).toFinset.card =
      ((dedupe rows).map Prod.snd).toFinset.card + 1 := by
    rw [hmap, hmap0, List.toFinset_append]
    have : ([min a.chatId b.chatId, min a.chatId b.chatId] :
        List Int).toFinset = {min a.chatId b.chatId} := by
      simp
    rw [this]
    rw [Finset.union_comm, ← Finset.insert_eq,
      Finset.card_insert_of_not_mem hmnotin]
  have hlen : (rows ++ [a, b]).length = rows.length + 2 := by
    simp
  have hcardle : ((dedupe rows).map Prod.snd).toFinset.card ≤ rows.length := by
    calc ((dedupe rows).map Prod.snd).toFinset.card
        ≤ ((dedupe rows).map Prod.snd).length := List.toFinset_card_le _
      _ = rows.length := by unfold dedupe; simp
  unfold duplicatedChats
  rw [hcardeq, hlen]
  omega

/-- C6 witness: the spec's concrete pair — participant sets observed as
7,9 and 9,7 — gets one canonical ID, and the duplicate count rises from 0
to 1. -/
theorem C6_dedupe_pair_witness :
    canonicalId ([] ++ [⟨1, {7, 9}⟩, ⟨2, {9, 7}⟩]) ⟨1, {7, 9}⟩ =
        canonicalId ([] ++ [⟨1, {7, 9}⟩, ⟨2, {9, 7}⟩]) ⟨2, {9, 7}⟩ ∧
      duplicatedChats ([] ++ [⟨1, {7, 9}⟩, ⟨2, {9, 7}⟩]) =
        duplicatedChats [] + 1 :=
  C6_dedupe_pair [] ⟨1, {7, 9}⟩ ⟨2, {9, 7}⟩ (by decide)
    (fun r hr => absurd hr (List.not_mem_nil r)) (by decide)

/-!
ConversationMultiplexer: `JSONExporter` of `src/exporters/json.rs`.
`iter_messages` first groups the formatted records by raw `chat_id` in a
`HashMap<Option<i32>, Vec<Value>>` (per-key insertion order preserved by
`Vec::push`), then writes each group as one `writeln` line into the file of
the resolved conversation, opening files lazily with append+create;
unresolved groups go to the orphan file opened in `JSONExporter::new`.
The assoc lists used here keep entries in insertion order — a deterministic
refinement of the `HashMap` iteration order; the ordering counterexample
below does not depend on which group order the map iterates in.
-/

/-- A formatted record: its raw chat ID and an identifying payload (the
JSON value built by `format_custom` is abstracted to the message itself). -/
structure Msg where
  chatId : Option Int
  guid : Nat
deriving DecidableEq

/-- Modelled from the spec: the runtime `Config` (`app/runtime.rs` of a
newer tree, not under `src/`): `conversation` resolves a raw chat ID to its
canonical conversation (`none` when the chat is unknown), and `filename`
derives a name deterministically from the canonical identity. -/
structure Config where
  resolve : Int → Option Int
  filename : Int → String

/-- `export_path.join(filename).with_extension("json")` (json.rs line 147),
with the export directory left implicit. -/
def Config.pathOf (cfg : Config) (c : Int) : String :=
  cfg.filename c ++ ".json"

/-- The orphan file path built in `JSONExporter::new` (json.rs lines 91-93). -/
def orphanPath : String :=
  "orphaned.json"

/-- Lines of one output file; each line is the JSON array of one raw chat's
records, written by one `writeln` (json.rs line 137). -/
abbrev Lines := List (List Msg)

/-- On-disk state of the export directory: `orphan = none` means the orphan
file does not exist yet; opening append+create keeps existing lines. -/
structure Disk where
  orphan : Option Lines
  convs : List (String × Lines)
deriving DecidableEq

/-- `RuntimeError::CreateError(err, path)` (json.rs lines 98 and 153),
keyed by the path that failed to open. -/
inductive ExpError where
  | createError (path : String)
deriving DecidableEq

/-- Deterministic file-system behavior of
`File::options().append(true).create(true).open(path)`: per-path success. -/
structure ExpEnv where
  createOk : String → Bool

def getLines (p : String) : List (String × Lines) → Lines
  | [] => []
  | (q, w) :: rest => if q = p then w else getLines p rest

def setLines (p : String) (v : Lines) :
    List (String × Lines) → List (String × Lines)
  | [] => [(p, v)]
  | (q, w) :: rest =>
    if q = p then (p, v) :: rest else (q, w) :: setLines p v rest

/-- `conversation_map.entry(msg.chat_id).or_default().push(json_message)`
(json.rs line 129). -/
def upsert (k : Option Int) (m : Msg) :
    List (Option Int × List Msg) → List (Option Int × List Msg)
  | [] => [(k, [m])]
  | (q, w) :: rest =>
    if q = k then (q, w ++ [m]) :: rest else (q, w) :: upsert k m rest

/-- The grouping loop of `iter_messages` (json.rs lines 120-132): the
stream of records grouped by raw chat ID, keys in first-seen order. -/
def groupByChat (msgs : List Msg) : List (Option Int × List Msg) :=
  msgs.foldl (fun acc m => upsert m.chatId m acc) []

/-- First-match group contents for a key. -/
def getGroup (k : Option Int) : List (Option Int × List Msg) → List Msg
  | [] => []
  | (q, w) :: rest => if q = k then w else getGroup k rest

/-- State threaded through the write loop: the disk, the keys of the open
`files` map (insertion order), and the log of `File::open` create attempts. -/
structure WSt where
  disk : Disk
  opened : List String
  attempts : List String
deriving DecidableEq

/-- The write loop of `iter_messages` (json.rs lines 135-140) combined with
`get_or_create_file` (lines 143-161): resolve each group's raw chat; append
the group's array as one line to the resolved conversation's file — opening
it append+create on first use, and aborting the whole run with
`CreateError` if the open fails — or to the already-open orphan file when
the conversation does not resolve. -/
def writeGroups (env : ExpEnv) (cfg : Config) :
    List (Option Int × List Msg) → WSt → Except ExpError Unit × WSt
  | [], st => (Except.ok (), st)
  | (key, arr) :: rest, st =>
    match key.bind cfg.resolve with
    | some c =>
      if cfg.pathOf c ∈ st.opened then
        writeGroups env cfg rest
          { st with disk := { st.disk with
              convs := setLines (cfg.pathOf c)
                (getLines (cfg.pathOf c) st.disk.convs ++ [arr])
                st.disk.convs } }
      else
        if env.createOk (cfg.pathOf c) then
          writeGroups env cfg rest
            { disk := { st.disk with
                convs := setLines (cfg.pathOf c)
                  (getLines (cfg.pathOf c) st.disk.convs ++ [arr])
                  st.disk.convs },
              opened := st.opened ++ [cfg.pathOf c],
              attempts := st.attempts ++ [cfg.pathOf c] }
        else
          (Except.error (ExpError.createError (cfg.pathOf c)),
            { st with attempts := st.attempts ++ [cfg.pathOf c] })
    | none =>
      writeGroups env cfg rest
        { st with disk := { st.disk with
            orphan := some ((st.disk.orphan.getD []) ++ [arr]) } }

/-- Result of one export run: the returned value, the disk, the open
per-conversation files, and the create attempts in order. -/
structure RunOut where
  result : Except ExpError Unit
  disk : Disk
  opened : List String
  attempts : List String

/-- `JSONExporter::new` (json.rs lines 90-105) followed by `iter_messages`:
the orphan file is opened append+create at construction, before any record
is routed; if that open fails the constructor returns the error and nothing
else runs. -/
def runExport (env : ExpEnv) (cfg : Config) (msgs : List Msg) (d : Disk) :
    RunOut :=
  if env.createOk orphanPath then
    let st := writeGroups env cfg (groupByChat msgs)
      ⟨{ d with orphan := some (d.orphan.getD []) }, [], [orphanPath]⟩
    ⟨st.1, st.2.disk, st.2.opened, st.2.attempts⟩
  else
    ⟨Except.error (ExpError.createError orphanPath), d, [], [orphanPath]⟩

/-- A record is stored somewhere on disk: on some line of the orphan file
or of some conversation file. -/
def recordStored (d : Disk) (m : Msg) : Prop :=
  (∃ line ∈ d.orphan.getD [], m ∈ line) ∨
    ∃ e ∈ d.convs, ∃ line ∈ e.2, m ∈ line

theorem getLines_set_same (p : String) (v : Lines) (l : List (String × Lines)) :
    getLines p (setLines p v l) = v := by
  induction l with
  | nil => simp [getLines, setLines]
  | cons e rest ih =>
    obtain ⟨q, w⟩ := e
    simp only [setLines]
    split_ifs with h
    · simp [getLines]
    · simp only [getLines, if_neg h]
      exact ih

theorem getLines_set_other (p q : String) (v : Lines)
    (l : List (String × Lines)) (h : q ≠ p) :
    getLines q (setLines p v l) = getLines q l := by
  induction l with
  | nil =>
    simp only [setLines, getLines]
    rw [if_neg (fun hh => h hh.symm)]
  | cons e rest ih =>
    obtain ⟨q2, w⟩ := e
    simp only [setLines]
    split_ifs with h2
    · subst h2
      have hne : ¬(q2 = q) := fun hh => h hh.symm
      simp only [getLines, if_neg hne]
    · simp only [getLines]
      split_ifs with h3
      · rfl
      · exact ih

/-! Step equations for the write loop. -/

theorem writeGroups_cons_hit (env : ExpEnv) (cfg : Config) (key : Option Int)
    (arr : List Msg) (rest : List (Option Int × List Msg)) (st : WSt)
    (c : Int) (hk : key.bind cfg.resolve = some c)
    (hmem : cfg.pathOf c ∈ st.opened) :
    writeGroups env cfg ((key, arr) :: rest) st =
      writeGroups env cfg rest
        { st with disk := { st.disk with
            convs := setLines (cfg.pathOf c)
              (getLines (cfg.pathOf c) st.disk.convs ++ [arr])
              st.disk.convs } } := by
  simp only [writeGroups, hk]
  rw [if_pos hmem]

theorem writeGroups_cons_create (env : ExpEnv) (cfg : Config)
    (key : Option Int) (arr : List Msg) (rest : List (Option Int × List Msg))
    (st : WSt) (c : Int) (hk : key.bind cfg.resolve = some c)
    (hmem : cfg.pathOf c ∉ st.opened) (hcr : env.createOk (cfg.pathOf c) = true) :
    writeGroups env cfg ((key, arr) :: rest) st =
      writeGroups env cfg rest
        { disk := { st.disk with
            convs := setLines (cfg.pathOf c)
              (getLines (cfg.pathOf c) st.disk.convs ++ [arr])
              st.disk.convs },
          opened := st.opened ++ [cfg.pathOf c],
          attempts := st.attempts ++ [cfg.pathOf c] } := by
  simp only [writeGroups, hk]
  rw [if_neg hmem, if_pos hcr]

theorem writeGroups_cons_fail (env : ExpEnv) (cfg : Config) (key : Option Int)
    (arr : List Msg) (rest : List (Option Int × List Msg)) (st : WSt)
    (c : Int) (hk : key.bind cfg.resolve = some c)
    (hmem : cfg.pathOf c ∉ st.opened)
    (hcr : env.createOk (cfg.pathOf c) = false) :
    writeGroups env cfg ((key, arr) :: rest) st =
      (Except.error (ExpError.createError (cfg.pathOf c)),
        { st with attempts := st.attempts ++ [cfg.pathOf c] }) := by
  simp only [writeGroups, hk]
  rw [if_neg hmem, if_neg (by rw [hcr]; simp)]

theorem writeGroups_cons_orphan (env : ExpEnv) (cfg : Config)
    (key : Option Int) (arr : List Msg) (rest : List (Option Int × List Msg))
    (st : WSt) (hk : key.bind cfg.resolve = none) :
    writeGroups env cfg ((key, arr) :: rest) st =
      writeGroups env cfg rest
        { st with disk := { st.disk with
            orphan := some ((st.disk.orphan.getD []) ++ [arr]) } } := by
  simp only [writeGroups, hk]

/-- One induction giving every monotonicity fact about the write loop: the
attempt log, the open-file list, the orphan lines and every conversation
file's lines only ever grow by appending. -/
theorem writeGroups_ext (env : ExpEnv) (cfg : Config)
    (gs : List (Option Int × List Msg)) (st : WSt) :
    (∃ t, (writeGroups env cfg gs st).2.attempts = st.attempts ++ t) ∧
      (∃ t, (writeGroups env cfg gs st).2.opened = st.opened ++ t) ∧
      (∃ t, (writeGroups env cfg gs st).2.disk.orphan.getD [] =
        st.disk.orphan.getD [] ++ t) ∧
      (∀ w, st.disk.orphan = some w →
        ∃ t, (writeGroups env cfg gs st).2.disk.orphan = some (w ++ t)) ∧
      (∀ q, ∃ t, getLines q (writeGroups env cfg gs st).2.disk.convs =
        getLines q st.disk.convs ++ t) := by
  induction gs generalizing st with
  | nil =>
    refine ⟨⟨[], by simp [writeGroups]⟩, ⟨[], by simp [writeGroups]⟩,
      ⟨[], by simp [writeGroups]⟩, ?_, ?_⟩
    · intro w hw
      exact ⟨[], by simp [writeGroups, hw]⟩
    · intro q
      exact ⟨[], by simp [writeGroups]⟩
  | cons g rest ih =>
    obtain ⟨key, arr⟩ := g
    cases hk : key.bind cfg.resolve with
    | some c =>
      by_cases hmem : cfg.pathOf c ∈ st.opened
      · rw [writeGroups_cons_hit env cfg key arr rest st c hk hmem]
        obtain ⟨ha, ho, hod, hos, hc⟩ := ih _
        refine ⟨ha, ho, hod, hos, ?_⟩
        intro q
        obtain ⟨t, ht⟩ := hc q
        by_cases hq : q = cfg.pathOf c
        · subst hq
          rw [ht, getLines_set_same]
          exact ⟨[arr] ++ t, by simp⟩
        · rw [ht, getLines_set_other _ _ _ _ hq]
          exact ⟨t, rfl⟩
      · by_cases hcr : env.createOk (cfg.pathOf c) = true
        · rw [writeGroups_cons_create env cfg key arr rest st c hk hmem hcr]
          obtain ⟨⟨ta, ha⟩, ⟨to2, ho⟩, hod, hos, hc⟩ := ih _
          refine ⟨⟨[cfg.pathOf c] ++ ta, by rw [ha]; simp⟩,
            ⟨[cfg.pathOf c] ++ to2, by rw [ho]; simp⟩, hod, hos, ?_⟩
          intro q
          obtain ⟨t, ht⟩ := hc q
          by_cases hq : q = cfg.pathOf c
          · subst hq
            rw [ht, getLines_set_same]
            exact ⟨[arr] ++ t, by simp⟩
          · rw [ht, getLines_set_other _ _ _ _ hq]
            exact ⟨t, rfl⟩
        · rw [Bool.not_eq_true] at hcr
          rw [writeGroups_cons_fail env cfg key arr rest st c hk hmem hcr]
          refine ⟨⟨[cfg.pathOf c], rfl⟩, ⟨[], by simp⟩, ⟨[], by simp⟩, ?_, ?_⟩
          · intro w hw
            exact ⟨[], by simp [hw]⟩
          · intro q
            exact ⟨[], by simp⟩
    | none =>
      rw [writeGroups_cons_orphan env cfg key arr rest st hk]
      obtain ⟨ha, ho, ⟨td, hod⟩, hos, hc⟩ := ih _
      refine ⟨ha, ho, ⟨[arr] ++ td, ?_⟩, ?_, hc⟩
      · rw [hod]
        simp
      · intro w hw
        obtain ⟨t, ht⟩ := hos ((st.disk.orphan.getD []) ++ [arr]) rfl
        refine ⟨[arr] ++ t, ?_⟩
        rw [ht, hw]
        simp [List.append_assoc]

theorem writeGroups_ok_of_all (env : ExpEnv) (cfg : Config)
    (gs : List (Option Int × List Msg)) (st : WSt)
    (hall : ∀ p, env.createOk p = true) :
    (writeGroups env cfg gs st).1 = Except.ok () := by
  induction gs generalizing st with
  | nil => rfl
  | cons g rest ih =>
    obtain ⟨key, arr⟩ := g
    cases hk : key.bind cfg.resolve with
    | some c =>
      by_cases hmem : cfg.pathOf c ∈ st.opened
      · rw [writeGroups_cons_hit env cfg key arr rest st c hk hmem]
        exact ih _
      · rw [writeGroups_cons_create env cfg key arr rest st c hk hmem (hall _)]
        exact ih _
    | none =>
      rw [writeGroups_cons_orphan env cfg key arr rest st hk]
      exact ih _

theorem writeGroups_member (env : ExpEnv) (cfg : Config)
    (gs : List (Option Int × List Msg)) (st : WSt)
    (h : (writeGroups env cfg gs st).1 = Except.ok ()) :
    ∀ key arr, (key, arr) ∈ gs →
      match key.bind cfg.resolve with
      | some c => arr ∈ getLines (cfg.pathOf c)
          (writeGroups env cfg gs st).2.disk.convs
      | none => arr ∈ (writeGroups env cfg gs st).2.disk.orphan.getD [] := by
  induction gs generalizing st with
  | nil =>
    intro key arr hmem
    cases hmem
  | cons g rest ih =>
    obtain ⟨gkey, garr⟩ := g
    intro key arr hmem
    rcases List.mem_cons.mp hmem with heq | htail
    · injection heq with h1 h2
      subst h1
      subst h2
      cases hk : key.bind cfg.resolve with
      | some c =>
        dsimp only
        by_cases hmem2 : cfg.pathOf c ∈ st.opened
        · rw [writeGroups_cons_hit env cfg key arr rest st c hk hmem2]
          obtain ⟨-, -, -, -, hc⟩ := writeGroups_ext env cfg rest _
          obtain ⟨t, ht⟩ := hc (cfg.pathOf c)
          rw [ht, getLines_set_same]
          simp
        · by_cases hcr : env.createOk (cfg.pathOf c) = true
          · rw [writeGroups_cons_create env cfg key arr rest st c hk hmem2 hcr]
            obtain ⟨-, -, -, -, hc⟩ := writeGroups_ext env cfg rest _
            obtain ⟨t, ht⟩ := hc (cfg.pathOf c)
            rw [ht, getLines_set_same]
            simp
          · rw [Bool.not_eq_true] at hcr
            rw [writeGroups_cons_fail env cfg key arr rest st c hk hmem2 hcr]
              at h
            cases h
      | none =>
        dsimp only
        rw [writeGroups_cons_orphan env cfg key arr rest st hk]
        obtain ⟨-, -, ⟨t, ht⟩, -, -⟩ := writeGroups_ext env cfg rest _
        rw [ht]
        simp
    · cases hk : gkey.bind cfg.resolve with
      | some c =>
        by_cases hmem2 : cfg.pathOf c ∈ st.opened
        · rw [writeGroups_cons_hit env cfg gkey garr rest st c hk hmem2] at h ⊢
          exact ih _ h key arr htail
        · by_cases hcr : env.createOk (cfg.pathOf c) = true
          · rw [writeGroups_cons_create env cfg gkey garr rest st c hk hmem2
              hcr] at h ⊢
            exact ih _ h key arr htail
          · rw [Bool.not_eq_true] at hcr
            rw [writeGroups_cons_fail env cfg gkey garr rest st c hk hmem2 hcr]
              at h
            cases h
      | none =>
        rw [writeGroups_cons_orphan env cfg gkey garr rest st hk] at h ⊢
        exact ih _ h key arr htail

theorem writeGroups_error (env : ExpEnv) (cfg : Config)
    (gs : List (Option Int × List Msg)) (st : WSt)
    (hprev : ∀ q ∈ st.attempts, env.createOk q = true) :
    ∀ e, (writeGroups env cfg gs st).1 = Except.error e →
      ∃ p, e = ExpError.createError p ∧ env.createOk p = false ∧
        (writeGroups env cfg gs st).2.attempts.count p = 1 ∧
        (writeGroups env cfg gs st).2.attempts.getLast? = some p := by
  induction gs generalizing st with
  | nil =>
    intro e h
    cases h
  | cons g rest ih =>
    obtain ⟨key, arr⟩ := g
    intro e h
    cases hk : key.bind cfg.resolve with
    | some c =>
      by_cases hmem : cfg.pathOf c ∈ st.opened
      · rw [writeGroups_cons_hit env cfg key arr rest st c hk hmem] at h ⊢
        refine ih _ ?_ e h
        exact hprev
      · by_cases hcr : env.createOk (cfg.pathOf c) = true
        · rw [writeGroups_cons_create env cfg key arr rest st c hk hmem hcr]
            at h ⊢
          refine ih _ ?_ e h
          intro q hq
          rcases List.mem_append.mp hq with h2 | h2
          · exact hprev q h2
          · rw [List.mem_singleton.mp h2]
            exact hcr
        · rw [Bool.not_eq_true] at hcr
          rw [writeGroups_cons_fail env cfg key arr rest st c hk hmem hcr]
            at h ⊢
          injection h with h2
          refine ⟨cfg.pathOf c, h2.symm, hcr, ?_, ?_⟩
          · have hnot : cfg.pathOf c ∉ st.attempts := by
              intro hin
              rw [hprev _ hin] at hcr
              cases hcr
            rw [List.count_append, List.count_eq_zero.mpr hnot]
            simp
          · exact List.getLast?_concat _
    | none =>
      rw [writeGroups_cons_orphan env cfg key arr rest st hk] at h ⊢
      refine ih _ ?_ e h
      exact hprev

theorem writeGroups_opened (env : ExpEnv) (cfg : Config)
    (gs : List (Option Int × List Msg)) (st : WSt)
    (hall : ∀ p, env.createOk p = true) :
    (writeGroups env cfg gs st).2.opened.toFinset =
      st.opened.toFinset ∪
        ((gs.filterMap (fun g => g.1.bind cfg.resolve)).map cfg.pathOf).toFinset ∧
      (st.opened.Nodup → (writeGroups env cfg gs st).2.opened.Nodup) := by
  induction gs generalizing st with
  | nil =>
    refine ⟨by simp [writeGroups], fun h => h⟩
  | cons g rest ih =>
    obtain ⟨key, arr⟩ := g
    cases hk : key.bind cfg.resolve with
    | some c =>
      have hfm : ((key, arr) :: rest).filterMap
          (fun g => g.1.bind cfg.resolve) =
          c :: rest.filterMap (fun g => g.1.bind cfg.resolve) := by
        rw [List.filterMap_cons]
        simp [hk]
      by_cases hmem : cfg.pathOf c ∈ st.opened
      · rw [writeGroups_cons_hit env cfg key arr rest st c hk hmem]
        obtain ⟨hset, hnd⟩ := ih ({ st with disk := { st.disk with
          convs := setLines (cfg.pathOf c)
            (getLines (cfg.pathOf c) st.disk.convs ++ [arr])
            st.disk.convs } })
        refine ⟨?_, hnd⟩
        rw [hset, hfm]
        have hp : cfg.pathOf c ∈ st.opened.toFinset :=
          List.mem_toFinset.mpr hmem
        simp only [List.map_cons, List.toFinset_cons]
        ext x
        simp only [Finset.mem_union, Finset.mem_insert]
        constructor
        · rintro (h2 | h2)
          · exact Or.inl h2
          · exact Or.inr (Or.inr h2)
        · rintro (h2 | h2 | h2)
          · exact Or.inl h2
          · rw [h2]
            exact Or.inl hp
          · exact Or.inr h2
      · rw [writeGroups_cons_create env cfg key arr rest st c hk hmem (hall _)]
        obtain ⟨hset, hnd⟩ := ih _
        constructor
        · rw [hset, hfm]
          have hop : (st.opened ++ [cfg.pathOf c]).toFinset =
              st.opened.toFinset ∪ {cfg.pathOf c} := by
            rw [List.toFinset_append]
            simp
          rw [hop]
          simp only [List.map_cons, List.toFinset_cons]
          ext x
          simp only [Finset.mem_union, Finset.mem_insert,
            Finset.mem_singleton]
          tauto
        · intro hnodup
          apply hnd
          apply List.Nodup.append hnodup (List.nodup_singleton _)
          intro a ha hb
          rw [List.mem_singleton.mp hb] at ha
          exact hmem ha
    | none =>
      have hfm : ((key, arr) :: rest).filterMap
          (fun g => g.1.bind cfg.resolve) =
          rest.filterMap (fun g => g.1.bind cfg.resolve) := by
        rw [List.filterMap_cons]
        simp [hk]
      rw [writeGroups_cons_orphan env cfg key arr rest st hk, hfm]
      exact ih _

/-! Grouping lemmas. -/

theorem getGroup_upsert_same (k : Option Int) (m : Msg)
    (acc : List (Option Int × List Msg)) :
    getGroup k (upsert k m acc) = getGroup k acc ++ [m] := by
  induction acc with
  | nil => simp [upsert, getGroup]
  | cons e rest ih =>
    obtain ⟨q, w⟩ := e
    simp only [upsert]
    split_ifs with h
    · subst h
      simp [getGroup]
    · simp only [getGroup, if_neg h]
      exact ih

theorem getGroup_upsert_other (k k2 : Option Int) (m : Msg)
    (acc : List (Option Int × List Msg)) (h : k2 ≠ k) :
    getGroup k2 (upsert k m acc) = getGroup k2 acc := by
  induction acc with
  | nil =>
    simp only [upsert, getGroup]
    rw [if_neg (fun hh => h hh.symm)]
  | cons e rest ih =>
    obtain ⟨q, w⟩ := e
    simp only [upsert]
    split_ifs with h2
    · subst h2
      have hne : ¬(q = k2) := fun hh => h hh.symm
      simp only [getGroup, if_neg hne]
    · simp only [getGroup]
      split_ifs with h3
      · rfl
      · exact ih

theorem groupBy_filter_aux (msgs : List Msg)
    (acc : List (Option Int × List Msg)) (key : Option Int) :
    getGroup key (msgs.foldl (fun a m => upsert m.chatId m a) acc) =
      getGroup key acc ++
        msgs.filter (fun x => decide (x.chatId = key)) := by
  induction msgs generalizing acc with
  | nil => simp
  | cons m rest ih =>
    simp only [List.foldl_cons, List.filter_cons]
    by_cases hmk : m.chatId = key
    · rw [if_pos (by simp [hmk])]
      rw [ih (upsert m.chatId m acc)]
      rw [hmk, getGroup_upsert_same]
      simp
    · rw [if_neg (by simp [hmk])]
      rw [ih (upsert m.chatId m acc)]
      rw [getGroup_upsert_other _ _ _ _ (fun hh => hmk hh.symm)]

theorem groupBy_filter (msgs : List Msg) (key : Option Int) :
    getGroup key (groupByChat msgs) =
      msgs.filter (fun x => decide (x.chatId = key)) := by
  unfold groupByChat
  rw [groupBy_filter_aux msgs [] key]
  rfl

theorem getGroup_mem (k : Option Int) (l : List (Option Int × List Msg))
    (h : getGroup k l ≠ []) : (k, getGroup k l) ∈ l := by
  induction l with
  | nil => exact absurd rfl h
  | cons e rest ih =>
    obtain ⟨q, w⟩ := e
    by_cases hq : q = k
    · subst hq
      simp only [getGroup, if_pos rfl]
      exact List.mem_cons_self _ _
    · simp only [getGroup, if_neg hq] at h ⊢
      exact List.mem_cons_of_mem _ (ih h)

theorem getLines_mem_entry (p : String) (l : List (String × Lines))
    (arr : List Msg) (h : arr ∈ getLines p l) :
    ∃ e ∈ l, arr ∈ e.2 := by
  induction l with
  | nil => cases h
  | cons e rest ih =>
    obtain ⟨q, w⟩ := e
    by_cases hq : q = p
    · exact ⟨(q, w), List.mem_cons_self _ _, by
        rw [getLines, if_pos hq] at h
        exact h⟩
    · rw [getLines, if_neg hq] at h
      obtain ⟨e2, he2, ha⟩ := ih h
      exact ⟨e2, List.mem_cons_of_mem _ he2, ha⟩

theorem upsert_keys (k : Option Int) (m : Msg)
    (acc : List (Option Int × List Msg)) :
    ((upsert k m acc).map Prod.fst).toFinset =
      insert k (acc.map Prod.fst).toFinset := by
  induction acc with
  | nil => simp [upsert]
  | cons e rest ih =>
    obtain ⟨q, w⟩ := e
    simp only [upsert]
    split_ifs with h
    · subst h
      simp
    · simp only [List.map_cons, List.toFinset_cons, ih]
      rw [Finset.Insert.comm]

theorem groupBy_keys_aux (msgs : List Msg)
    (acc : List (Option Int × List Msg)) :
    (((msgs.foldl (fun a m => upsert m.chatId m a) acc)).map
        Prod.fst).toFinset =
      (acc.map Prod.fst).toFinset ∪ (msgs.map Msg.chatId).toFinset := by
  induction msgs generalizing acc with
  | nil => simp
  | cons m rest ih =>
    simp only [List.foldl_cons, List.map_cons, List.toFinset_cons]
    rw [ih (upsert m.chatId m acc), upsert_keys]
    ext x
    simp only [Finset.mem_union, Finset.mem_insert]
    tauto

theorem toFinset_filterMap_congr {α β : Type} [DecidableEq α] [DecidableEq β]
    (f : α → Option β) (l1 l2 : List α) (h : l1.toFinset = l2.toFinset) :
    (l1.filterMap f).toFinset = (l2.filterMap f).toFinset := by
  ext a
  simp only [List.mem_toFinset, List.mem_filterMap]
  constructor
  · rintro ⟨x, hx, hfx⟩
    refine ⟨x, ?_, hfx⟩
    rw [← List.mem_toFinset, ← h, List.mem_toFinset]
    exact hx
  · rintro ⟨x, hx, hfx⟩
    refine ⟨x, ?_, hfx⟩
    rw [← List.mem_toFinset, h, List.mem_toFinset]
    exact hx

theorem toFinset_listMap {α β : Type} [DecidableEq α] [DecidableEq β]
    (f : α → β) (l : List α) :
    (l.map f).toFinset = l.toFinset.image f := by
  ext a
  simp

/-- The state `JSONExporter::new` leaves behind: the orphan file opened
append+create, no conversation file open, one create attempt logged. -/
def startState (d : Disk) : WSt :=
  ⟨{ d with orphan := some (d.orphan.getD []) }, [], [orphanPath]⟩

theorem runExport_eq_of_ok (env : ExpEnv) (cfg : Config) (msgs : List Msg)
    (d : Disk) (h : env.createOk orphanPath = true) :
    runExport env cfg msgs d =
      ⟨(writeGroups env cfg (groupByChat msgs) (startState d)).1,
        (writeGroups env cfg (groupByChat msgs) (startState d)).2.disk,
        (writeGroups env cfg (groupByChat msgs) (startState d)).2.opened,
        (writeGroups env cfg (groupByChat msgs) (startState d)).2.attempts⟩ := by
  unfold runExport startState
  rw [if_pos h]

/-! Exporter fixtures. -/

def envFsOk : ExpEnv := ⟨fun _ => true⟩

/-- A configuration in which raw chats 1 and 2 are duplicates resolving to
the same canonical conversation 10. -/
def cfgDup : Config :=
  ⟨fun i => if i = 1 ∨ i = 2 then some 10 else none,
    fun c => if c = 10 then "ten" else "x"⟩

def d0 : Disk := ⟨none, []⟩

def mA : Msg := ⟨some 1, 0⟩

def mB : Msg := ⟨some 2, 1⟩

def mC : Msg := ⟨some 1, 2⟩

/-- Driver-supplied order: raw chat 1, raw chat 2, raw chat 1 again. -/
def msgsDup : List Msg := [mA, mB, mC]

/-- C7 counterexample: three records of one canonical conversation arrive
from two duplicate raw chats interleaved (mA, mB, mC); the conversation's
file holds one array per raw chat — mA, mC first, then mB — so the records
do not appear in the driver-supplied relative order mA, mB, mC, refuting the
claimed per-conversation ordering guarantee for merged conversations. -/
theorem C7_counterexample :
    (∀ m ∈ msgsDup, m.chatId.bind cfgDup.resolve = some 10) ∧
      getLines (cfgDup.pathOf 10)
        (runExport envFsOk cfgDup msgsDup d0).disk.convs = [[mA, mC], [mB]] ∧
      (getLines (cfgDup.pathOf 10)
        (runExport envFsOk cfgDup msgsDup d0).disk.convs).flatten =
        [mA, mC, mB] ∧
      msgsDup = [mA, mB, mC] ∧
      [mA, mC, mB] ≠ [mA, mB, mC] := by
  decide

/-- C7 (amended): with every file creation succeeding and distinct
canonical conversations getting distinct paths, the run succeeds, the
number of open per-conversation files equals the number K of distinct
canonical conversations among the resolvable records (the orphan file is
open in addition, giving K+1 open files), and each group of records of one
raw chat is written as a single array in driver-supplied order to its
canonical conversation's file (to the orphan file when the chat does not
resolve); the driver's interleaving across duplicate raw chats of one
conversation is not preserved (see the counterexample). -/
theorem C7_files_and_order (env : ExpEnv) (cfg : Config) (msgs : List Msg)
    (d : Disk) (hall : ∀ p, env.createOk p = true)
    (hinj : ∀ c1, (∃ m ∈ msgs, m.chatId.bind cfg.resolve = some c1) →
      ∀ c2, (∃ m ∈ msgs, m.chatId.bind cfg.resolve = some c2) →
      cfg.pathOf c1 = cfg.pathOf c2 → c1 = c2) :
    (runExport env cfg msgs d).result = Except.ok () ∧
      (runExport env cfg msgs d).opened.length =
        ((msgs.filterMap (fun m => m.chatId.bind cfg.resolve)).toFinset).card ∧
      (∀ key : Option Int,
        msgs.filter (fun x => decide (x.chatId = key)) ≠ [] →
        match key.bind cfg.resolve with
        | some c => msgs.filter (fun x => decide (x.chatId = key)) ∈
            getLines (cfg.pathOf c) (runExport env cfg msgs d).disk.convs
        | none => msgs.filter (fun x => decide (x.chatId = key)) ∈
            (runExport env cfg msgs d).disk.orphan.getD []) := by
  rw [runExport_eq_of_ok env cfg msgs d (hall _)]
  have hok := writeGroups_ok_of_all env cfg (groupByChat msgs) (startState d)
    hall
  refine ⟨hok, ?_, ?_⟩
  · obtain ⟨hset, hnd⟩ := writeGroups_opened env cfg (groupByChat msgs)
      (startState d) hall
    have hnodup := hnd List.nodup_nil
    have hS : ((groupByChat msgs).filterMap
        (fun g => g.1.bind cfg.resolve)).toFinset =
        (msgs.filterMap (fun m => m.chatId.bind cfg.resolve)).toFinset := by
      have h1 : ((groupByChat msgs).filterMap
          (fun g => g.1.bind cfg.resolve)) =
          ((groupByChat msgs).map Prod.fst).filterMap
            (fun k => k.bind cfg.resolve) := by
        rw [List.filterMap_map]
        rfl
      have h2 : (msgs.filterMap (fun m => m.chatId.bind cfg.resolve)) =
          (msgs.map Msg.chatId).filterMap (fun k => k.bind cfg.resolve) := by
        rw [List.filterMap_map]
        rfl
      rw [h1, h2]
      apply toFinset_filterMap_congr
      have := groupBy_keys_aux msgs []
      unfold groupByChat
      rw [this]
      simp
    have hlen : (writeGroups env cfg (groupByChat msgs)
        (startState d)).2.opened.length =
        (writeGroups env cfg (groupByChat msgs)
          (startState d)).2.opened.toFinset.card :=
      (List.toFinset_card_of_nodup hnodup).symm
    rw [hlen, hset]
    have hempty : (startState d).opened.toFinset = ∅ := rfl
    rw [hempty, Finset.empty_union, toFinset_listMap, hS]
    apply Finset.card_image_of_injOn
    intro c1 h1 c2 h2 he
    rw [Finset.mem_coe, List.mem_toFinset, List.mem_filterMap] at h1 h2
    exact hinj c1 h1 c2 h2 he
  · intro key hne
    have hgrp := groupBy_filter msgs key
    have hmemg : (key, msgs.filter (fun x => decide (x.chatId = key))) ∈
        groupByChat msgs := by
      rw [← hgrp]
      apply getGroup_mem
      rw [hgrp]
      exact hne
    exact writeGroups_member env cfg (groupByChat msgs) (startState d) hok
      key _ hmemg

/-- C7 witness: the duplicate-chat run; all three records resolve to one
canonical conversation, one conversation file is open (K = 1), and each raw
chat's records appear as one driver-ordered array. -/
theorem C7_files_and_order_witness :
    (runExport envFsOk cfgDup msgsDup d0).result = Except.ok () ∧
      (runExport envFsOk cfgDup msgsDup d0).opened.length =
        ((msgsDup.filterMap
          (fun m => m.chatId.bind cfgDup.resolve)).toFinset).card ∧
      (∀ key : Option Int,
        msgsDup.filter (fun x => decide (x.chatId = key)) ≠ [] →
        match key.bind cfgDup.resolve with
        | some c => msgsDup.filter (fun x => decide (x.chatId = key)) ∈
            getLines (cfgDup.pathOf c)
              (runExport envFsOk cfgDup msgsDup d0).disk.convs
        | none => msgsDup.filter (fun x => decide (x.chatId = key)) ∈
            (runExport envFsOk cfgDup msgsDup d0).disk.orphan.getD []) :=
  C7_files_and_order envFsOk cfgDup msgsDup d0 (fun p => rfl)
    (by
      intro c1 h1 c2 h2 he
      obtain ⟨m1, hm1, he1⟩ := h1
      obtain ⟨m2, hm2, he2⟩ := h2
      have e1 : c1 = 10 := by
        have hm1x : m1 = mA ∨ m1 = mB ∨ m1 = mC := by
          simpa [msgsDup] using hm1
        rcases hm1x with rfl | rfl | rfl <;>
          · simp [cfgDup, mA, mB, mC] at he1
            omega
      have e2 : c2 = 10 := by
        have hm2x : m2 = mA ∨ m2 = mB ∨ m2 = mC := by
          simpa [msgsDup] using hm2
        rcases hm2x with rfl | rfl | rfl <;>
          · simp [cfgDup, mA, mB, mC] at he2
            omega
      rw [e1, e2])

/-- C8: every failed attempt to create a per-conversation output file or
the orphan file is surfaced to the caller immediately as `CreateError` for
that path — the whole run returns the error, the failing path was attempted
exactly once (never retried) and was the last attempt made; and when the
run succeeds, every supplied record is stored on some line of some output
file, so no record is silently dropped. -/
theorem C8_create_failure_fatal (env : ExpEnv) (cfg : Config)
    (msgs : List Msg) (d : Disk) :
    (∀ e, (runExport env cfg msgs d).result = Except.error e →
      ∃ p, e = ExpError.createError p ∧ env.createOk p = false ∧
        (runExport env cfg msgs d).attempts.count p = 1 ∧
        (runExport env cfg msgs d).attempts.getLast? = some p) ∧
      ((runExport env cfg msgs d).result = Except.ok () →
        ∀ m ∈ msgs, recordStored (runExport env cfg msgs d).disk m) := by
  by_cases horph : env.createOk orphanPath = true
  · rw [runExport_eq_of_ok env cfg msgs d horph]
    constructor
    · intro e h
      refine writeGroups_error env cfg (groupByChat msgs) (startState d) ?_ e h
      intro q hq
      rw [List.mem_singleton.mp hq]
      exact horph
    · intro hok m hm
      have hgrp := groupBy_filter msgs m.chatId
      have hmm : m ∈ msgs.filter (fun x => decide (x.chatId = m.chatId)) :=
        List.mem_filter.mpr ⟨hm, by simp⟩
      have hne : msgs.filter (fun x => decide (x.chatId = m.chatId)) ≠ [] :=
        List.ne_nil_of_mem hmm
      have hmemg : (m.chatId,
          msgs.filter (fun x => decide (x.chatId = m.chatId))) ∈
          groupByChat msgs := by
        rw [← hgrp]
        apply getGroup_mem
        rw [hgrp]
        exact hne
      have hw := writeGroups_member env cfg (groupByChat msgs) (startState d)
        hok m.chatId _ hmemg
      cases hk : m.chatId.bind cfg.resolve with
      | some c =>
        rw [hk] at hw
        simp only at hw
        obtain ⟨e2, he2, ha⟩ := getLines_mem_entry (cfg.pathOf c) _ _ hw
        exact Or.inr ⟨e2, he2, _, ha, hmm⟩
      | none =>
        rw [hk] at hw
        simp only at hw
        exact Or.inl ⟨_, hw, hmm⟩
  · have hrun : runExport env cfg msgs d =
        ⟨Except.error (ExpError.createError orphanPath), d, [],
          [orphanPath]⟩ := by
      unfold runExport
      rw [if_neg horph]
    rw [hrun]
    constructor
    · intro e h
      injection h with h2
      refine ⟨orphanPath, h2.symm, ?_, by simp, rfl⟩
      rwa [Bool.not_eq_true] at horph
    · intro hok
      cases hok

/-- Environment in which only the creation of conversation file `ten.json`
fails. -/
def envTenFail : ExpEnv :=
  ⟨fun p => if p = cfgDup.pathOf 10 then false else true⟩

/-- C8 witness: the run whose only conversation file cannot be created ends
in `CreateError` for that path, attempted exactly once and last. -/
theorem C8_create_failure_fatal_witness :
    ∃ p, ExpError.createError (cfgDup.pathOf 10) = ExpError.createError p ∧
      envTenFail.createOk p = false ∧
      (runExport envTenFail cfgDup msgsDup d0).attempts.count p = 1 ∧
      (runExport envTenFail cfgDup msgsDup d0).attempts.getLast? = some p :=
  (C8_create_failure_fatal envTenFail cfgDup msgsDup d0).1
    (ExpError.createError (cfgDup.pathOf 10)) rfl

/-- C10: the orphan file is opened append+create at exporter construction:
it is always the first create attempt, before any record is routed, and
after the run the orphan file exists holding its previous content as a
prefix — re-running appends rather than truncating, and the file exists
even when every record resolves to a conversation. -/
theorem C10_orphan_eager (env : ExpEnv) (cfg : Config) (msgs : List Msg)
    (d : Disk) (h : env.createOk orphanPath = true) :
    (runExport env cfg msgs d).attempts.head? = some orphanPath ∧
      ∃ t, (runExport env cfg msgs d).disk.orphan =
        some ((d.orphan.getD []) ++ t) := by
  rw [runExport_eq_of_ok env cfg msgs d h]
  obtain ⟨⟨ta, hta⟩, -, -, hos, -⟩ := writeGroups_ext env cfg
    (groupByChat msgs) (startState d)
  constructor
  · rw [hta]
    rfl
  · exact hos (d.orphan.getD []) rfl

/-- C10 witness: an orphan file already holding one line survives a run in
which every record resolves (M = 0): the old content stays as a prefix. -/
theorem C10_orphan_eager_witness :
    (runExport envFsOk cfgDup msgsDup ⟨some [[⟨none, 5⟩]], []⟩).attempts.head? =
        some orphanPath ∧
      ∃ t, (runExport envFsOk cfgDup msgsDup
          ⟨some [[⟨none, 5⟩]], []⟩).disk.orphan =
        some (((⟨some [[⟨none, 5⟩]], []⟩ : Disk).orphan.getD []) ++ t) :=
  C10_orphan_eager envFsOk cfgDup msgsDup ⟨some [[⟨none, 5⟩]], []⟩ rfl

end Imx
